import Mathlib

/-! # redisclone: RESP decoder, reply codec, store and command dispatcher

A shallow embedding of `server.go` and `resp/resp.go`.

* A Go `string` is a finite sequence of bytes, `List (Fin 256)`; `len` is `List.length`.
* Go's `int` is 64 bits wide: arithmetic on it is done in `Int` and wrapped by `wrapInt`.
* A Go function that can end in a runtime panic returns `Except Panic _`.
* `log.*` calls have no effect on the values computed and are left out.
* `conn.Write` appends one chunk to the list of chunks written to the connection;
  its return values are ignored by the source and are not modelled.
* The global `STORE` is passed explicitly; its `sync.RWMutex` plays no part in a
  sequential run and is not modelled.
-/

namespace RedisClone

/-! ## Go primitives -/

/-- One byte of a Go string. -/
abbrev Byte := Fin 256

/-- A Go `string`: a sequence of bytes. -/
abbrev GoString := List Byte

/-- The bytes of an ASCII literal. -/
def ascii (s : String) : GoString := s.toList.map (fun c => Fin.ofNat c.toNat)

/-- Largest value of Go's 64-bit `int`. -/
def maxInt : Int := 2 ^ 63 - 1

/-- Size in bytes of one Go `string` value, a pointer and a length, on a 64-bit platform;
it is the element size of `[]string` and of `[]BulkString`. -/
def stringSize : Int := 16

/-- The runtime constant `maxAlloc` on 64-bit Linux: no allocation is larger, so a Go slice of
strings has at most `maxAlloc / stringSize` elements. -/
def maxAlloc : Int := 2 ^ 48

/-- Two's-complement wrap-around of a mathematical integer into Go's 64-bit `int`. -/
def wrapInt (x : Int) : Int := (x + 2 ^ 63) % 2 ^ 64 - 2 ^ 63

/-- The runtime faults the decoder can end in. -/
inductive Panic where
  /-- Slice bounds out of range (`s[lo:hi]` with `lo < 0`, `lo > hi` or `hi > len(s)`). -/
  | sliceBounds
  /-- The fault of `make([]T, n)` when `n < 0` or when `n` elements take more bytes than
  the allocator can hand out: makeslice, len out of range. -/
  | makesliceLen
  deriving DecidableEq, Repr

/-- Results of a run that may end in a fault can be compared. -/
instance instDecidableEqExcept {ε α : Type} [DecidableEq ε] [DecidableEq α] :
    DecidableEq (Except ε α)
  | .ok a, .ok b => if h : a = b then isTrue (by rw [h]) else isFalse (fun e => h (by cases e; rfl))
  | .error a, .error b =>
    if h : a = b then isTrue (by rw [h]) else isFalse (fun e => h (by cases e; rfl))
  | .ok _, .error _ => isFalse (fun e => by cases e)
  | .error _, .ok _ => isFalse (fun e => by cases e)

/-- The slice expression `data[lo:hi]`. -/
def slice (data : GoString) (lo hi : Int) : Except Panic GoString :=
  if 0 ≤ lo ∧ lo ≤ hi ∧ hi ≤ (data.length : Int) then
    .ok ((data.drop lo.toNat).take (hi.toNat - lo.toNat))
  else .error .sliceBounds

/-- The slice expression `data[lo:]`. -/
def sliceFrom (data : GoString) (lo : Int) : Except Panic GoString :=
  if 0 ≤ lo ∧ lo ≤ (data.length : Int) then .ok (data.drop lo.toNat)
  else .error .sliceBounds

/-- Position of the first occurrence of `substr` in `s`, if there is one. -/
def indexNat (substr : GoString) : GoString → Option Nat
  | [] => if substr = [] then some 0 else none
  | c :: cs =>
    if substr.isPrefixOf (c :: cs) = true then some 0
    else (indexNat substr cs).map (· + 1)

/-- Go's `strings.Index(s, substr)`: the index of the first occurrence, or `-1`. -/
def Index (s substr : GoString) : Int :=
  match indexNat substr s with
  | some i => (i : Int)
  | none => -1

/-- The two reasons `strconv` rejects a number: `ErrSyntax` and `ErrRange`. -/
inductive NumErrKind where
  /-- The value of `strconv.ErrSyntax`. -/
  | malformed
  /-- The value of `strconv.ErrRange`. -/
  | outOfRange
  deriving DecidableEq, Repr

/-- The digit loop of `strconv.ParseUint(s, 10, 64)`, with `n` the value read so far. -/
def parseUintLoop : List Byte → Nat → Except NumErrKind Nat
  | [], n => .ok n
  | c :: cs, n =>
    if 48 ≤ c.val ∧ c.val ≤ 57 then
      if 2 ^ 64 / 10 + 1 ≤ n then .error .outOfRange
      else if 2 ^ 64 ≤ n * 10 + (c.val - 48) then .error .outOfRange
      else parseUintLoop cs (n * 10 + (c.val - 48))
    else .error .malformed

/-- Go's `strconv.ParseInt(s, 10, 0)` on a 64-bit platform. -/
def parseInt10 (s : GoString) : Except NumErrKind Int :=
  match s with
  | [] => .error .malformed
  | c :: cs =>
    let body := if c = 43 ∨ c = 45 then cs else c :: cs
    match body with
    | [] => .error .malformed
    | _ :: _ =>
      match parseUintLoop body 0 with
      | .error k => .error k
      | .ok un =>
        if c ≠ 45 ∧ 2 ^ 63 ≤ un then .error .outOfRange
        else if c = 45 ∧ 2 ^ 63 < un then .error .outOfRange
        else .ok (if c = 45 then -(un : Int) else (un : Int))

/-- The errors the server's functions return. -/
inductive GoError where
  /-- The value of `errors.New("invalid array")`. -/
  | invalidArray
  /-- The value of `errors.New("unparsed items in array")`. -/
  | unparsedItems
  /-- The value of `errors.New("empty command arrary")`. -/
  | emptyCommand
  /-- The value of `errors.New("not enough arguments")`. -/
  | notEnoughArguments
  /-- The `*strconv.NumError` of `strconv.Atoi`, with its `Num` and `Err` fields. -/
  | numError (num : GoString) (kind : NumErrKind)
  deriving DecidableEq, Repr

/-- Go's `strconv.Atoi`: `ParseInt(s, 10, 0)` converted to `int`; the fast path Go takes
for short inputs computes the same result. -/
def Atoi (s : GoString) : Except GoError Int :=
  match parseInt10 s with
  | .error k => .error (.numError s k)
  | .ok n => .ok n

/-- Decimal digits of `n`, most significant first; `fuel` bounds the number of digits. -/
def fmtDigits : Nat → Nat → GoString
  | 0, _ => []
  | fuel + 1, n =>
    if n < 10 then [Fin.ofNat (48 + n)]
    else fmtDigits fuel (n / 10) ++ [Fin.ofNat (48 + n % 10)]

/-- The verb `%d` of `fmt.Sprintf` applied to a non-negative `int`. -/
def fmtNat (n : Nat) : GoString := fmtDigits (n + 1) n

/-! ## Package `resp` -/

namespace resp

/-- The constant `RESP_SEPARATOR`, the two bytes CR LF. -/
def RESP_SEPARATOR : GoString := [13, 10]

/-- The constant `NULL_BULK_STRING`, `$-1` followed by CR LF. -/
def NULL_BULK_STRING : GoString := [36, 45, 49, 13, 10]

/-- The type `BulkString`. -/
structure BulkString where
  Data : GoString
  deriving DecidableEq, Repr

/-- The type `BulkStringArray`. -/
structure BulkStringArray where
  Data : List BulkString
  deriving DecidableEq, Repr

/-- The type `SimpleString`. -/
structure SimpleString where
  Data : GoString
  deriving DecidableEq, Repr

/-- The type `SimpleError`. -/
structure SimpleError where
  Data : GoString
  deriving DecidableEq, Repr

/-- `fmt.Sprintf("$%d%s%s%s", len(bs.Data), RESP_SEPARATOR, bs.Data, RESP_SEPARATOR)`. -/
def BulkString.Serialize (bs : BulkString) : GoString :=
  [36] ++ fmtNat bs.Data.length ++ RESP_SEPARATOR ++ bs.Data ++ RESP_SEPARATOR

/-- `"*%d%s"` of the element count, then every element's serialization appended in order. -/
def BulkStringArray.Serialize (arr : BulkStringArray) : GoString :=
  arr.Data.foldl (fun s bs => s ++ bs.Serialize) ([42] ++ fmtNat arr.Data.length ++ RESP_SEPARATOR)

/-- `fmt.Sprintf("+%s%s", ss.Data, RESP_SEPARATOR)`. -/
def SimpleString.Serialize (ss : SimpleString) : GoString :=
  [43] ++ ss.Data ++ RESP_SEPARATOR

/-- `fmt.Sprintf("-%s%s", err.Data, RESP_SEPARATOR)`. -/
def SimpleError.Serialize (err : SimpleError) : GoString :=
  [45] ++ err.Data ++ RESP_SEPARATOR

end resp

/-! ## Package `main`: the decoder -/

/-- The constant `RESP_SEPARATOR` of `server.go`. -/
def RESP_SEPARATOR : GoString := [13, 10]

/-- The function `parseRespBulkStrings`: the parsed string and the rest of the data. -/
def parseRespBulkStrings (data : GoString) : Except Panic (GoString × GoString) :=
  if data.length = 0 ∨ data.head? ≠ some 36 then .ok ([], data)
  else
    let idxFirst := Index data RESP_SEPARATOR
    if idxFirst = -1 then .ok ([], data)
    else do
      let num ← slice data 1 idxFirst
      match Atoi num with
      | .error _ => pure ([], data)
      | .ok strLen =>
        let idxLast := wrapInt (idxFirst + 2 + strLen)
        let probe ← slice data idxLast (wrapInt (idxLast + 2))
        if probe ≠ RESP_SEPARATOR then pure ([], data)
        else do
          let s ← slice data (wrapInt (idxFirst + (RESP_SEPARATOR.length : Int))) idxLast
          let rest ← sliceFrom data (wrapInt (idxLast + 2))
          pure (s, rest)

/-- The loop `for len(remainder) > 0 && arrIdx < arrLen` of `parseRespArray`. The first
argument is `arrLen - arrIdx`, which drops by one in every iteration that does not
`break`; the result is the final `arrIdx`, `remainder` and `arr2`. -/
def parseLoop : Nat → Nat → GoString → List GoString →
    Except Panic (Nat × GoString × List GoString)
  | 0, arrIdx, remainder, arr2 => .ok (arrIdx, remainder, arr2)
  | todo + 1, arrIdx, remainder, arr2 =>
    if remainder.length > 0 then
      match parseRespBulkStrings remainder with
      | .error p => .error p
      | .ok (s, remainder1) =>
        if s = [] then .ok (arrIdx, remainder1, arr2)
        else parseLoop todo (arrIdx + 1) remainder1 (arr2.set arrIdx s)
    else .ok (arrIdx, remainder, arr2)

/-- The function `parseRespArray`: the pair `(arr, err)` it returns, `arr` being `nil`
(the empty list) on every error path. `make([]string, arrLen)` faults as
`runtime.makeslice` does, on a negative length and on one whose elements exceed `maxAlloc`;
an allocation within that limit is taken to succeed. -/
def parseRespArray (data : GoString) : Except Panic (List GoString × Option GoError) :=
  if data.length = 0 ∨ data.head? ≠ some 42 then .ok ([], some .invalidArray)
  else
    let sepIdx := Index data (ascii "\r\n")
    do
      let num ← slice data 1 sepIdx
      match Atoi num with
      | .error e => pure ([], some e)
      | .ok arrLen =>
        if arrLen < 0 ∨ maxAlloc < stringSize * arrLen then .error .makesliceLen
        else
          let arr2 : List GoString := List.replicate arrLen.toNat []
          let remainder ← sliceFrom data (wrapInt (sepIdx + 2))
          let (arrIdx, remainder1, arr3) ← parseLoop arrLen.toNat 0 remainder arr2
          if remainder1.length > 0 ∨ (arrIdx : Int) ≠ arrLen then pure ([], some .unparsedItems)
          else pure (arr3, none)

/-! ## Package `main`: the store and the dispatcher -/

/-- The type `Store`: the map `data` from keys to values. -/
structure Store where
  data : GoString → Option GoString

/-- The method `Store.Set`: the assignment `store.data[k] = v`. -/
def Store.Set (store : Store) (k v : GoString) : Store :=
  ⟨fun key => if key = k then some v else store.data key⟩

/-- The method `Store.Get`: the two-valued map read `s, exists := store.data[k]`. -/
def Store.Get (store : Store) (k : GoString) : GoString × Bool :=
  match store.data k with
  | some s => (s, true)
  | none => ([], false)

/-- The global `STORE` at start-up: an empty map. -/
def STORE : Store := ⟨fun _ => none⟩

/-- Go's `strings.ToUpper`. A string of ASCII bytes has its letters `a`..`z` replaced by
`A`..`Z`; any other string goes through `strings.Map(unicode.ToUpper, s)`, which is the
parameter `mapUpper`. -/
def ToUpper (mapUpper : GoString → GoString) (s : GoString) : GoString :=
  if s.all (fun c => decide (c.val < 128)) = true then
    s.map (fun c => if 97 ≤ c.val ∧ c.val ≤ 122 then Fin.ofNat (c.val - 32) else c)
  else mapUpper s

/-- A connection, seen from the handlers: the chunks written to it so far, oldest first. -/
abbrev Conn := List GoString

/-- The call `conn.Write([]byte(b))`. -/
def Conn.Write (conn : Conn) (b : GoString) : Conn := conn ++ [b]

/-- The function `handlePing`. -/
def handlePing (conn : Conn) (arr : List GoString) : Conn :=
  if arr.length > 1 then
    let reply : resp.BulkString := ⟨arr.getD 1 []⟩
    conn.Write reply.Serialize
  else
    let pong : resp.SimpleString := ⟨ascii "PONG"⟩
    conn.Write pong.Serialize

/-- The function `handleSet`: the connection and store afterwards, and the error returned. -/
def handleSet (conn : Conn) (store : Store) (arr : List GoString) :
    Conn × Store × Option GoError :=
  if arr.length < 3 then (conn, store, some .notEnoughArguments)
  else
    let key := arr.getD 1 []
    let val := arr.getD 2 []
    let store1 := store.Set key val
    let ok : resp.SimpleString := ⟨ascii "OK"⟩
    (conn.Write ok.Serialize, store1, none)

/-- The function `handleGet`: the connection afterwards and the error returned. -/
def handleGet (conn : Conn) (store : Store) (arr : List GoString) : Conn × Option GoError :=
  if arr.length < 2 then
    let simpErr : resp.SimpleError := ⟨ascii "not enough arguments"⟩
    (conn.Write simpErr.Serialize, none)
  else
    let key := arr.getD 1 []
    let (val, found) := store.Get key
    if !found then (conn.Write resp.NULL_BULK_STRING, none)
    else
      let bs : resp.BulkString := ⟨val⟩
      (conn.Write bs.Serialize, none)

/-- The function `handleCommand`: the connection and store afterwards, and the error
returned. -/
def handleCommand (mapUpper : GoString → GoString) (conn : Conn) (store : Store)
    (arr : List GoString) : Conn × Store × Option GoError :=
  if arr.length = 0 then (conn, store, some .emptyCommand)
  else
    let command := ToUpper mapUpper (arr.getD 0 [])
    if command = ascii "PING" then (handlePing conn arr, store, none)
    else if command = ascii "SET" then
      match handleSet conn store arr with
      | (conn1, store1, some err) => (conn1, store1, some err)
      | (conn1, store1, none) => (conn1, store1, none)
    else if command = ascii "GET" then
      match handleGet conn store arr with
      | (conn1, some err) => (conn1, store, some err)
      | (conn1, none) => (conn1, store, none)
    else
      let simpErr : resp.SimpleError := ⟨ascii "unknown command: " ++ command⟩
      (conn.Write simpErr.Serialize, store, none)

/-- A call on the store: `Get(k)` or `Set(k, v)`. -/
inductive StoreOp where
  | get (k : GoString)
  | set (k v : GoString)

/-- The store after one call; `Get` leaves it as it is. -/
def StoreOp.run (store : Store) : StoreOp → Store
  | .get _ => store
  | .set k v => store.Set k v

/-- The store after a finite sequence of calls, made in order. -/
def runOps (store : Store) (ops : List StoreOp) : Store := ops.foldl StoreOp.run store

/-- The key a call writes, if it writes one. -/
def StoreOp.writes : StoreOp → Option GoString
  | .get _ => none
  | .set k _ => some k

/-- One bulk-string frame on the wire: `$`, a length text, CR LF, the payload, CR LF. -/
def frame (lenText payload : GoString) : GoString :=
  [36] ++ lenText ++ [13, 10] ++ payload ++ [13, 10]

/-- The frames of a list of (length text, payload) pairs, one after the other. -/
def frames : List (GoString × GoString) → GoString
  | [] => []
  | p :: ps => frame p.1 p.2 ++ frames ps

/-- A frame is well formed when its length text has no CR and parses to the length of
its non-empty payload. -/
def WellFormed (p : GoString × GoString) : Prop :=
  (∀ c ∈ p.1, c ≠ 13) ∧ Atoi p.1 = .ok (p.2.length : Int) ∧ p.2 ≠ []

/-- A payload paired with the decimal text of its own length. -/
def withLen (s : GoString) : GoString × GoString := (fmtNat s.length, s)

/-- The bulk-string encodings of `xs`, one after the other. -/
def bulkStrings (xs : List GoString) : GoString :=
  (xs.map (fun s => resp.BulkString.Serialize ⟨s⟩)).flatten

/-- The request a client sends for the command `cmd`. -/
def request (cmd : List GoString) : GoString :=
  resp.BulkStringArray.Serialize ⟨cmd.map resp.BulkString.mk⟩

/-- A byte string without the line terminator CR LF in it. -/
def NoTerminator (s : GoString) : Prop := indexNat [13, 10] s = none

/-- One syntactically complete RESP reply: a Simple String `+S` or a Simple Error `-S`
closed by CR LF with no line terminator inside `S`, the Null Bulk String, or a Bulk String
`$L`, CR LF, `P`, CR LF with `L` the decimal length of `P`. -/
def WellFormedReply (b : GoString) : Prop :=
  (∃ S, b = [43] ++ S ++ [13, 10] ∧ NoTerminator S)
    ∨ (∃ S, b = [45] ++ S ++ [13, 10] ∧ NoTerminator S)
    ∨ b = [36, 45, 49, 13, 10]
    ∨ (∃ P, b = [36] ++ fmtNat P.length ++ [13, 10] ++ P ++ [13, 10])

/-! ## The lock of the store, under interleaving -/

/-- A `sync.RWMutex`: how many holders have it in shared mode, and whether one has it in
exclusive mode. -/
structure RWMutex where
  readers : Nat
  writer : Bool
  deriving DecidableEq, Repr

/-- The statements of `Store.Set` and `Store.Get`, each one atomic step of a goroutine. -/
inductive Stmt where
  /-- The call `store.lock.RLock()`. -/
  | RLock
  /-- The call `store.lock.RUnlock()`. -/
  | RUnlock
  /-- The call `store.lock.Lock()`. -/
  | Lock
  /-- The call `store.lock.Unlock()`. -/
  | Unlock
  /-- The assignment `store.data[k] = v`. -/
  | mapWrite (k v : GoString)
  /-- The read `s, exists := store.data[k]`. -/
  | mapRead (k : GoString)
  deriving DecidableEq, Repr

/-- The body of `Store.Set(k, v)` in program order. -/
def Store.SetStmts (k v : GoString) : List Stmt := [.RLock, .mapWrite k v, .RUnlock]

/-- The body of `Store.Get(k)` in program order; the deferred `Unlock` runs at the return. -/
def Store.GetStmts (k : GoString) : List Stmt := [.Lock, .mapRead k, .Unlock]

/-- The store shared by goroutines: its lock, its map, and what each goroutine has left to
run. -/
structure Shared where
  lock : RWMutex
  store : Store
  goroutines : List (List Stmt)

/-- One statement run on the lock and the map; `none` when the statement has to wait.
`RLock` waits while the lock is held in exclusive mode, `Lock` waits while it is held in
any mode. -/
def Stmt.exec (lock : RWMutex) (store : Store) : Stmt → Option (RWMutex × Store)
  | .RLock => if lock.writer then none else some (⟨lock.readers + 1, false⟩, store)
  | .RUnlock => some (⟨lock.readers - 1, lock.writer⟩, store)
  | .Lock => if lock.writer ∨ lock.readers ≠ 0 then none else some (⟨0, true⟩, store)
  | .Unlock => some (⟨lock.readers, false⟩, store)
  | .mapWrite k v => some (lock, store.Set k v)
  | .mapRead _ => some (lock, store)

/-- Goroutine `i` runs its next statement; `none` when it has finished or has to wait. -/
def Shared.step (s : Shared) (i : Nat) : Option Shared :=
  match s.goroutines.getD i [] with
  | [] => none
  | stmt :: rest =>
    match stmt.exec s.lock s.store with
    | none => none
    | some (lock1, store1) => some ⟨lock1, store1, s.goroutines.set i rest⟩

/-- A schedule: the goroutines that run one statement each, in this order. -/
def Shared.run (s : Shared) : List Nat → Option Shared
  | [] => some s
  | i :: is =>
    match s.step i with
    | none => none
    | some s1 => s1.run is

/-- A goroutine is inside the map assignment of `Store.Set` when that assignment is its
next statement: it has taken the lock and not yet released it. -/
def atMapWrite : List Stmt → Bool
  | .mapWrite _ _ :: _ => true
  | _ => false

/-! ## Integers and their decimal text -/

theorem wrapInt_of_range (x : Int) (h1 : -2 ^ 63 ≤ x) (h2 : x < 2 ^ 63) : wrapInt x = x := by
  unfold wrapInt; omega

theorem wrapInt_neg_of_overflow (x : Int) (h1 : 2 ^ 63 ≤ x) (h2 : x < 2 ^ 64) :
    wrapInt x < 0 := by
  unfold wrapInt; omega

theorem digit_val (d : Nat) (h : d < 10) : ((Fin.ofNat (48 + d) : Byte)).val = 48 + d := by
  simp [Fin.ofNat]; omega

theorem parseUintLoop_append (xs ys : List Byte) (n : Nat) :
    parseUintLoop (xs ++ ys) n
      = match parseUintLoop xs n with
        | .error k => .error k
        | .ok m => parseUintLoop ys m := by
  induction xs generalizing n with
  | nil => simp [parseUintLoop]
  | cons c cs ih =>
    simp only [List.cons_append, parseUintLoop]
    split
    · split
      · rfl
      · split
        · rfl
        · exact ih _
    · rfl

theorem parseUintLoop_fmtDigits (fuel n : Nat) (h : n < fuel) (hn : n < 2 ^ 64) :
    parseUintLoop (fmtDigits fuel n) 0 = .ok n := by
  induction fuel generalizing n with
  | zero => omega
  | succ fuel ih =>
    unfold fmtDigits
    split
    · rename_i h10
      simp only [parseUintLoop, digit_val n h10]
      rw [if_pos (by omega), if_neg (by omega), if_neg (by omega)]
      congr 1
      omega
    · rename_i h10
      rw [parseUintLoop_append, ih (n / 10) (by omega) (by omega)]
      have hd := digit_val (n % 10) (by omega)
      simp only [parseUintLoop, hd]
      rw [if_pos (by omega), if_neg (by omega), if_neg (by omega)]
      congr 1
      omega

theorem fmtDigits_digits (fuel n : Nat) :
    ∀ c ∈ fmtDigits fuel n, 48 ≤ c.val ∧ c.val ≤ 57 := by
  induction fuel generalizing n with
  | zero => simp [fmtDigits]
  | succ fuel ih =>
    unfold fmtDigits
    split
    · rename_i h10
      intro c hc
      simp only [List.mem_singleton] at hc
      subst hc
      rw [digit_val n h10]; omega
    · intro c hc
      rcases List.mem_append.1 hc with hc | hc
      · exact ih _ c hc
      · simp only [List.mem_singleton] at hc
        subst hc
        rw [digit_val (n % 10) (by omega)]; omega

theorem fmtDigits_ne_nil (fuel n : Nat) : fmtDigits (fuel + 1) n ≠ [] := by
  unfold fmtDigits
  split <;> simp

theorem fmtNat_digits (n : Nat) : ∀ c ∈ fmtNat n, 48 ≤ c.val ∧ c.val ≤ 57 :=
  fmtDigits_digits _ _

theorem fmtNat_ne_nil (n : Nat) : fmtNat n ≠ [] := fmtDigits_ne_nil _ _

theorem fmtNat_no_cr (n : Nat) : ∀ c ∈ fmtNat n, c ≠ 13 := by
  intro c hc h
  have := fmtNat_digits n c hc
  rw [h] at this
  omega

theorem parseInt10_of_digits (s : GoString) (un : Nat) (hne : s ≠ [])
    (hd : ∀ c ∈ s, 48 ≤ c.val ∧ c.val ≤ 57) (hv : parseUintLoop s 0 = .ok un)
    (hun : un < 2 ^ 63) : parseInt10 s = .ok (un : Int) := by
  cases s with
  | nil => exact absurd rfl hne
  | cons c cs =>
    have hc := hd c (List.mem_cons_self _ _)
    have h43 : c ≠ 43 := by intro h; rw [h] at hc; omega
    have h45 : c ≠ 45 := by intro h; rw [h] at hc; omega
    simp only [parseInt10, h43, h45, or_self, if_false, hv]
    simp
    omega

theorem Atoi_fmtNat (n : Nat) (hn : (n : Int) ≤ maxInt) : Atoi (fmtNat n) = .ok (n : Int) := by
  have hn2 : n < 2 ^ 63 := by unfold maxInt at hn; omega
  have h := parseInt10_of_digits (fmtNat n) n (fmtNat_ne_nil n) (fmtNat_digits n)
    (parseUintLoop_fmtDigits _ _ (by omega) (by omega)) hn2
  simp [Atoi, h]

/-- What `parseInt10` returns fits Go's `int`. -/
theorem parseInt10_range (s : GoString) (n : Int) (h : parseInt10 s = .ok n) :
    -2 ^ 63 ≤ n ∧ n < 2 ^ 63 := by
  unfold parseInt10 at h
  split at h
  · cases h
  · rename_i c cs
    simp only at h
    split at h
    · cases h
    · split at h
      · cases h
      · rename_i un _
        split at h
        · cases h
        · split at h
          · cases h
          · rename_i h1 h2
            injection h with h
            subst h
            by_cases hc : c = 45
            · simp only [hc, true_and, not_lt, if_true] at h2 ⊢
              omega
            · simp only [hc, ne_eq, not_false_eq_true, true_and, not_le, if_false] at h1 ⊢
              omega

theorem Atoi_range (s : GoString) (n : Int) (h : Atoi s = .ok n) :
    -2 ^ 63 ≤ n ∧ n < 2 ^ 63 := by
  unfold Atoi at h
  split at h
  · cases h
  · rename_i m hm
    injection h with h
    subst h
    exact parseInt10_range s _ hm

/-! ## Searching and slicing -/

theorem ascii_crlf : ascii "\r\n" = [13, 10] := by decide

theorem indexNat_crlf_append (pre rest : GoString) (h : ∀ c ∈ pre, c ≠ 13) :
    indexNat [13, 10] (pre ++ 13 :: 10 :: rest) = some pre.length := by
  induction pre with
  | nil => simp [indexNat, List.isPrefixOf]
  | cons c cs ih =>
    have hc : c ≠ 13 := h c (List.mem_cons_self _ _)
    have hc2 : ¬ (13 : Byte) = c := fun e => hc e.symm
    have ih2 := ih (fun d hd => h d (List.mem_cons_of_mem _ hd))
    simp [indexNat, List.isPrefixOf, ih2, hc2]

theorem indexNat_spec (sep s : GoString) (i : Nat) (h : indexNat sep s = some i) :
    s = s.take i ++ sep ++ s.drop (i + sep.length) := by
  induction s generalizing i with
  | nil =>
    simp only [indexNat] at h
    split at h
    · rename_i h0
      injection h with h
      subst h; subst h0
      simp
    · cases h
  | cons c cs ih =>
    unfold indexNat at h
    split at h
    · rename_i hp
      injection h with h
      subst h
      obtain ⟨t, ht⟩ := List.isPrefixOf_iff_prefix.1 hp
      rw [← ht]
      simp
    · cases hj : indexNat sep cs with
      | none => simp [hj] at h
      | some j =>
        simp only [hj, Option.map_some', Option.some.injEq] at h
        subst h
        have e := ih j hj
        have e2 : j + 1 + sep.length = (j + sep.length) + 1 := by omega
        rw [e2, List.take_succ_cons, List.drop_succ_cons, List.cons_append, List.cons_append, ← e]

theorem indexNat_le (sep s : GoString) (i : Nat) (h : indexNat sep s = some i) :
    i + sep.length ≤ s.length := by
  induction s generalizing i with
  | nil =>
    simp only [indexNat] at h
    split at h
    · rename_i h0
      injection h with h
      subst h; subst h0
      simp
    · cases h
  | cons c cs ih =>
    unfold indexNat at h
    split at h
    · rename_i hp
      injection h with h
      subst h
      obtain ⟨t, ht⟩ := List.isPrefixOf_iff_prefix.1 hp
      rw [← ht]
      simp
    · cases hj : indexNat sep cs with
      | none => simp [hj] at h
      | some j =>
        simp only [hj, Option.map_some', Option.some.injEq] at h
        subst h
        have e := ih j hj
        simp only [List.length_cons]
        omega

theorem slice_of_nat (data : GoString) (lo hi : Int) (l h : Nat) (hl : lo = (l : Int))
    (hh : hi = (h : Int)) (hle : l ≤ h) (hlen : h ≤ data.length) :
    slice data lo hi = .ok ((data.drop l).take (h - l)) := by
  subst hl; subst hh
  unfold slice
  rw [if_pos (by omega)]
  simp

theorem sliceFrom_of_nat (data : GoString) (lo : Int) (l : Nat) (hl : lo = (l : Int))
    (hlen : l ≤ data.length) : sliceFrom data lo = .ok (data.drop l) := by
  subst hl
  unfold sliceFrom
  rw [if_pos (by omega)]
  simp

theorem slice_ok (data r : GoString) (lo hi : Int) (h : slice data lo hi = .ok r) :
    0 ≤ lo ∧ lo ≤ hi ∧ hi ≤ (data.length : Int)
      ∧ r = (data.drop lo.toNat).take (hi.toNat - lo.toNat) := by
  unfold slice at h
  split at h
  · rename_i hb
    injection h with h
    exact ⟨hb.1, hb.2.1, hb.2.2, h.symm⟩
  · cases h

theorem sliceFrom_ok (data r : GoString) (lo : Int) (h : sliceFrom data lo = .ok r) :
    0 ≤ lo ∧ lo ≤ (data.length : Int) ∧ r = data.drop lo.toNat := by
  unfold sliceFrom at h
  split at h
  · rename_i hb
    injection h with h
    exact ⟨hb.1, hb.2, h.symm⟩
  · cases h

theorem bind_ok {ε α β : Type} (a : α) (f : α → Except ε β) :
    (Except.ok a >>= f) = f a := rfl

theorem bind_error {ε α β : Type} (e : ε) (f : α → Except ε β) :
    ((Except.error e : Except ε α) >>= f) = Except.error e := rfl

/-- A well-formed frame at the head of the data is parsed into its payload and the rest. -/
theorem parseRespBulkStrings_frame (t s rest : GoString) (ht : ∀ c ∈ t, c ≠ 13)
    (hat : Atoi t = .ok (s.length : Int))
    (hlen : ((frame t s ++ rest).length : Int) ≤ maxInt) :
    parseRespBulkStrings (frame t s ++ rest) = .ok (s, rest) := by
  have hdata : frame t s ++ rest = (36 :: t) ++ 13 :: 10 :: (s ++ 13 :: 10 :: rest) := by
    simp [frame]
  have hidx : Index (frame t s ++ rest) RESP_SEPARATOR = ((t.length + 1 : Nat) : Int) := by
    have hpre : ∀ c ∈ (36 :: t : GoString), c ≠ 13 := by
      intro c hc
      rcases List.mem_cons.1 hc with hc | hc
      · subst hc; decide
      · exact ht c hc
    have := indexNat_crlf_append (36 :: t) (s ++ 13 :: 10 :: rest) hpre
    unfold Index RESP_SEPARATOR
    rw [hdata, this]
    simp
  have hL : (frame t s ++ rest).length = t.length + s.length + rest.length + 5 := by
    simp [frame]; omega
  unfold maxInt at hlen
  unfold parseRespBulkStrings
  rw [if_neg (by simp [frame])]
  simp only [hidx]
  rw [if_neg (by omega)]
  have h1 : slice (frame t s ++ rest) 1 ((t.length + 1 : Nat) : Int) = .ok t := by
    rw [slice_of_nat (frame t s ++ rest) 1 _ 1 (t.length + 1) (by norm_num) rfl (by omega)
      (by omega), hdata]
    simp
  have hw1 : wrapInt (((t.length + 1 : Nat) : Int) + 2 + (s.length : Int))
      = ((t.length + 3 + s.length : Nat) : Int) := by
    rw [wrapInt_of_range _ (by omega) (by omega)]; omega
  have hw2 : wrapInt (((t.length + 3 + s.length : Nat) : Int) + 2)
      = ((t.length + 5 + s.length : Nat) : Int) := by
    rw [wrapInt_of_range _ (by omega) (by omega)]; omega
  have hw3 : wrapInt (((t.length + 1 : Nat) : Int) + (RESP_SEPARATOR.length : Int))
      = ((t.length + 3 : Nat) : Int) := by
    rw [wrapInt_of_range _ (by simp [RESP_SEPARATOR]; omega) (by simp [RESP_SEPARATOR]; omega)]
    simp [RESP_SEPARATOR]; omega
  have h2 : slice (frame t s ++ rest) ((t.length + 3 + s.length : Nat) : Int)
      ((t.length + 5 + s.length : Nat) : Int) = .ok [13, 10] := by
    rw [slice_of_nat _ _ _ (t.length + 3 + s.length) (t.length + 5 + s.length) rfl rfl
      (by omega) (by omega)]
    have e : frame t s ++ rest = (36 :: t ++ 13 :: 10 :: s) ++ (13 :: 10 :: rest) := by
      simp [frame]
    have el : (36 :: t ++ 13 :: 10 :: s).length = t.length + 3 + s.length := by
      simp; omega
    rw [e, ← el, List.drop_left]
    have : t.length + 5 + s.length - (36 :: t ++ 13 :: 10 :: s).length = 2 := by
      rw [el]; omega
    rw [this]
    rfl
  have h3 : slice (frame t s ++ rest) ((t.length + 3 : Nat) : Int)
      ((t.length + 3 + s.length : Nat) : Int) = .ok s := by
    rw [slice_of_nat _ _ _ (t.length + 3) (t.length + 3 + s.length) rfl rfl
      (by omega) (by omega)]
    have e : frame t s ++ rest = (36 :: t ++ [13, 10]) ++ (s ++ 13 :: 10 :: rest) := by
      simp [frame]
    have el : (36 :: t ++ [13, 10]).length = t.length + 3 := by simp
    rw [e, ← el, List.drop_left]
    simp
  have h4 : sliceFrom (frame t s ++ rest) ((t.length + 5 + s.length : Nat) : Int)
      = .ok rest := by
    rw [sliceFrom_of_nat _ _ (t.length + 5 + s.length) rfl (by omega)]
    have e : frame t s ++ rest = (36 :: t ++ 13 :: 10 :: s ++ [13, 10]) ++ rest := by
      simp [frame]
    have el : (36 :: t ++ 13 :: 10 :: s ++ [13, 10]).length = t.length + 5 + s.length := by
      simp; omega
    rw [e, ← el, List.drop_left]
  rw [h1, bind_ok, hat]
  dsimp only
  rw [hw1, hw2, hw3, h2, h3, h4, bind_ok, if_neg (by simp [RESP_SEPARATOR]), bind_ok, bind_ok]
  rfl

/-! ## The decoder on well-formed frames -/

theorem set_length_append {α : Type} (pre : List α) (x y : α) (rest : List α) :
    (pre ++ x :: rest).set pre.length y = pre ++ y :: rest := by
  induction pre with
  | nil => rfl
  | cons a pre ih => simp [List.set, ih]

theorem frame_length (t s : GoString) : (frame t s).length = t.length + s.length + 5 := by
  simp [frame]; omega

theorem parseLoop_frames (ps : List (GoString × GoString)) (k m : Nat) (pre : List GoString)
    (G : GoString) (hwf : ∀ p ∈ ps, WellFormed p)
    (hlen : ((frames ps ++ G).length : Int) ≤ maxInt) :
    parseLoop (ps.length + k) pre.length (frames ps ++ G)
        (pre ++ List.replicate (ps.length + m) [])
      = parseLoop k (pre.length + ps.length) G
        (pre ++ ps.map Prod.snd ++ List.replicate m []) := by
  induction ps generalizing pre with
  | nil => simp [frames]
  | cons p ps ih =>
    obtain ⟨h1, h2, h3⟩ := hwf p (List.mem_cons_self _ _)
    have hlen1 : ((frame p.1 p.2 ++ (frames ps ++ G)).length : Int) ≤ maxInt := by
      simpa [frames] using hlen
    have hlen2 : ((frames ps ++ G).length : Int) ≤ maxInt := by
      rw [List.length_append] at hlen1
      push_cast at hlen1
      omega
    have e1 : (p :: ps).length + k = (ps.length + k) + 1 := by simp; omega
    have e2 : List.replicate ((p :: ps).length + m) ([] : GoString)
        = [] :: List.replicate (ps.length + m) [] := by
      have : (p :: ps).length + m = (ps.length + m) + 1 := by simp; omega
      rw [this, List.replicate_succ]
    have e3 : frames (p :: ps) ++ G = frame p.1 p.2 ++ (frames ps ++ G) := by
      simp [frames]
    rw [e1, e2, e3, parseLoop, if_pos (by rw [List.length_append, frame_length]; omega),
      parseRespBulkStrings_frame p.1 p.2 _ h1 h2 hlen1]
    dsimp only
    rw [if_neg h3, set_length_append]
    have := ih (pre ++ [p.2]) (fun q hq => hwf q (List.mem_cons_of_mem _ hq)) hlen2
    simp only [List.length_append, List.length_singleton, List.append_assoc,
      List.singleton_append] at this
    rw [this]
    simp only [List.map_cons, List.length_cons, List.append_assoc, List.cons_append]
    congr 1
    omega

theorem foldl_append_eq {α : Type} (f : α → GoString) (l : List α) (init : GoString) :
    l.foldl (fun s a => s ++ f a) init = init ++ (l.map f).flatten := by
  induction l generalizing init with
  | nil => simp
  | cons a l ih => simp [ih]

theorem frames_eq_join (ps : List (GoString × GoString)) :
    frames ps = (ps.map (fun p => frame p.1 p.2)).flatten := by
  induction ps with
  | nil => rfl
  | cons p ps ih => simp [frames, ih]

/-- The bytes of a request: the header, then the frame of each element. -/
theorem request_eq (cmd : List GoString) :
    request cmd = [42] ++ fmtNat cmd.length ++ [13, 10] ++ frames (cmd.map withLen) := by
  unfold request resp.BulkStringArray.Serialize
  rw [foldl_append_eq, frames_eq_join]
  simp [resp.BulkString.Serialize, resp.RESP_SEPARATOR, frame, withLen, Function.comp_def]

theorem withLen_wellFormed (cmd : List GoString) (hne : ∀ s ∈ cmd, s ≠ [])
    (hlen : ∀ s ∈ cmd, (s.length : Int) ≤ maxInt) : ∀ p ∈ cmd.map withLen, WellFormed p := by
  intro p hp
  obtain ⟨s, hs, rfl⟩ := List.mem_map.1 hp
  exact ⟨fmtNat_no_cr _, Atoi_fmtNat _ (hlen s hs), hne s hs⟩

/-- The decoder on a header declaring `ps.length + k` elements, followed by the well-formed
frames `ps` and the bytes `G`: what is left is the loop on `G`. -/
theorem parseRespArray_frames (ps : List (GoString × GoString)) (k : Nat) (G : GoString)
    (hwf : ∀ p ∈ ps, WellFormed p)
    (hk : stringSize * ((ps.length + k : Nat) : Int) ≤ maxAlloc)
    (hlen : (([42] ++ fmtNat (ps.length + k) ++ [13, 10] ++ frames ps ++ G).length : Int)
      ≤ maxInt) :
    parseRespArray ([42] ++ fmtNat (ps.length + k) ++ [13, 10] ++ frames ps ++ G)
      = (parseLoop k ps.length G (ps.map Prod.snd ++ List.replicate k [])
          >>= fun r =>
            if r.2.1.length > 0 ∨ (r.1 : Int) ≠ ((ps.length + k : Nat) : Int)
            then pure ([], some GoError.unparsedItems) else pure (r.2.2, none)) := by
  generalize hd : fmtNat (ps.length + k) = d at hlen
  have hdcr : ∀ c ∈ d, c ≠ 13 := hd ▸ fmtNat_no_cr _
  unfold stringSize maxAlloc at hk
  have hk0 : ((ps.length + k : Nat) : Int) ≤ maxInt := by unfold maxInt; omega
  have hat : Atoi d = .ok ((ps.length + k : Nat) : Int) := hd ▸ Atoi_fmtNat _ hk0
  have hdata : [42] ++ d ++ [13, 10] ++ frames ps ++ G
      = (42 :: d) ++ 13 :: 10 :: (frames ps ++ G) := by simp
  have hL : ([42] ++ d ++ [13, 10] ++ frames ps ++ G).length
      = d.length + 3 + (frames ps ++ G).length := by
    simp; omega
  rw [hL] at hlen
  rw [hdata] at *
  have hidx : Index ((42 :: d) ++ 13 :: 10 :: (frames ps ++ G)) [13, 10]
      = ((d.length + 1 : Nat) : Int) := by
    have hpre : ∀ c ∈ (42 :: d : GoString), c ≠ 13 := by
      intro c hc
      rcases List.mem_cons.1 hc with hc | hc
      · subst hc; decide
      · exact hdcr c hc
    unfold Index
    rw [indexNat_crlf_append (42 :: d) (frames ps ++ G) hpre]
    simp
  have hlen2 : ((frames ps ++ G).length : Int) ≤ maxInt := by omega
  unfold maxInt at hlen hk0
  have h1 : slice ((42 :: d) ++ 13 :: 10 :: (frames ps ++ G)) 1 ((d.length + 1 : Nat) : Int)
      = .ok d := by
    rw [slice_of_nat _ 1 _ 1 (d.length + 1) (by norm_num) rfl (by omega)
      (by simp)]
    simp
  have hw : wrapInt (((d.length + 1 : Nat) : Int) + 2) = ((d.length + 3 : Nat) : Int) := by
    rw [wrapInt_of_range _ (by omega) (by omega)]; omega
  have h2 : sliceFrom ((42 :: d) ++ 13 :: 10 :: (frames ps ++ G)) ((d.length + 3 : Nat) : Int)
      = .ok (frames ps ++ G) := by
    rw [sliceFrom_of_nat _ _ (d.length + 3) rfl (by simp)]
    have e : (42 :: d) ++ 13 :: 10 :: (frames ps ++ G)
        = (42 :: d ++ [13, 10]) ++ (frames ps ++ G) := by simp
    have el : (42 :: d ++ [13, 10]).length = d.length + 3 := by simp
    rw [e, ← el, List.drop_left]
  unfold parseRespArray
  rw [if_neg (by simp), ascii_crlf]
  dsimp only
  rw [hidx, h1, bind_ok, hat]
  dsimp only
  rw [if_neg (by unfold stringSize maxAlloc; omega), hw, h2, bind_ok, Int.toNat_ofNat]
  have hloop := parseLoop_frames ps k k [] G hwf hlen2
  simp only [List.length_nil, List.nil_append, Nat.zero_add] at hloop
  rw [hloop]

theorem length_le_frames (ps : List (GoString × GoString)) : ps.length ≤ (frames ps).length := by
  induction ps with
  | nil => simp
  | cons p ps ih =>
    simp only [frames, List.length_cons, List.length_append, frame_length]
    omega

theorem mem_length_le_frames (ps : List (GoString × GoString)) (p : GoString × GoString)
    (hp : p ∈ ps) : p.2.length ≤ (frames ps).length := by
  induction ps with
  | nil => cases hp
  | cons q ps ih =>
    simp only [frames, List.length_append, frame_length]
    rcases List.mem_cons.1 hp with hp | hp
    · subst hp; omega
    · have := ih hp
      omega

theorem bulkStrings_eq (xs : List GoString) : bulkStrings xs = frames (xs.map withLen) := by
  unfold bulkStrings
  rw [frames_eq_join]
  simp [resp.BulkString.Serialize, resp.RESP_SEPARATOR, frame, withLen, Function.comp_def]

/-- The decoder on a header declaring `xs.length + k` elements, the encodings of the
non-empty strings `xs`, and then the bytes `G`. -/
theorem parseRespArray_bulkStrings (xs : List GoString) (k : Nat) (G : GoString)
    (hne : ∀ s ∈ xs, s ≠ [])
    (hk : stringSize * ((xs.length + k : Nat) : Int) ≤ maxAlloc)
    (hlen : (([42] ++ fmtNat (xs.length + k) ++ [13, 10] ++ bulkStrings xs ++ G).length : Int)
      ≤ maxInt) :
    parseRespArray ([42] ++ fmtNat (xs.length + k) ++ [13, 10] ++ bulkStrings xs ++ G)
      = (parseLoop k xs.length G (xs ++ List.replicate k [])
          >>= fun r =>
            if r.2.1.length > 0 ∨ (r.1 : Int) ≠ ((xs.length + k : Nat) : Int)
            then pure ([], some GoError.unparsedItems) else pure (r.2.2, none)) := by
  rw [bulkStrings_eq] at hlen ⊢
  have hsl : ∀ s ∈ xs, (s.length : Int) ≤ maxInt := by
    intro s hs
    have h1 := mem_length_le_frames (xs.map withLen) (withLen s) (List.mem_map_of_mem _ hs)
    simp only [List.length_append] at hlen
    simp only [withLen] at h1
    omega
  have hwf := withLen_wellFormed xs hne hsl
  have h := parseRespArray_frames (xs.map withLen) k G hwf (by simpa using hk)
    (by simpa using hlen)
  simp only [List.length_map, List.map_map] at h
  have e : (Prod.snd ∘ withLen) = (id : GoString → GoString) := by
    funext s; rfl
  rw [e, List.map_id] at h
  exact h

theorem request_eq_bulkStrings (cmd : List GoString) :
    request cmd = [42] ++ fmtNat (cmd.length + 0) ++ [13, 10] ++ bulkStrings cmd ++ [] := by
  rw [request_eq, bulkStrings_eq]; simp

/-- Decoding the request of a command made of non-empty strings gives the command back. -/
theorem parseRespArray_request (cmd : List GoString) (hne : ∀ s ∈ cmd, s ≠ [])
    (hcmd : stringSize * (cmd.length : Int) ≤ maxAlloc)
    (hlen : ((request cmd).length : Int) ≤ maxInt) :
    parseRespArray (request cmd) = .ok (cmd, none) := by
  rw [request_eq_bulkStrings] at hlen ⊢
  have hk : stringSize * ((cmd.length + 0 : Nat) : Int) ≤ maxAlloc := by
    simpa using hcmd
  rw [parseRespArray_bulkStrings cmd 0 [] hne hk hlen]
  simp [parseLoop, bind_ok]
  rfl

/-- A successful parse of a non-empty string consumed exactly one frame. -/
theorem parseRespBulkStrings_ok (data s rest : GoString)
    (hlen : (data.length : Int) ≤ maxInt)
    (h : parseRespBulkStrings data = .ok (s, rest)) (hs : s ≠ []) :
    ∃ t, data = frame t s ++ rest ∧ Atoi t = .ok (s.length : Int) := by
  unfold parseRespBulkStrings at h
  split at h
  · injection h with h
    injection h with h1 h2
    exact absurd h1.symm hs
  rename_i hhead
  dsimp only at h
  split at h
  · injection h with h
    injection h with h1 h2
    exact absurd h1.symm hs
  rename_i hidx
  cases hi : indexNat RESP_SEPARATOR data with
  | none => exact absurd (by simp [Index, hi]) hidx
  | some i =>
    have hI : Index data RESP_SEPARATOR = (i : Int) := by simp [Index, hi]
    rw [hI] at h
    cases hnum : slice data 1 (i : Int) with
    | error p => rw [hnum, bind_error] at h; cases h
    | ok num =>
      rw [hnum, bind_ok] at h
      cases hat : Atoi num with
      | error e =>
        rw [hat] at h
        injection h with h
        injection h with h1 h2
        exact absurd h1.symm hs
      | ok strLen =>
        rw [hat] at h
        dsimp only at h
        cases hprobe : slice data (wrapInt ((i : Int) + 2 + strLen))
            (wrapInt (wrapInt ((i : Int) + 2 + strLen) + 2)) with
        | error p => rw [hprobe, bind_error] at h; cases h
        | ok probe =>
          rw [hprobe, bind_ok] at h
          split at h
          · injection h with h
            injection h with h1 h2
            exact absurd h1.symm hs
          rename_i hsep
          cases hs1 : slice data (wrapInt ((i : Int) + (RESP_SEPARATOR.length : Int)))
              (wrapInt ((i : Int) + 2 + strLen)) with
          | error p => rw [hs1, bind_error] at h; cases h
          | ok s1 =>
            rw [hs1, bind_ok] at h
            cases hr1 : sliceFrom data (wrapInt (wrapInt ((i : Int) + 2 + strLen) + 2)) with
            | error p => rw [hr1, bind_error] at h; cases h
            | ok r1 =>
              rw [hr1, bind_ok] at h
              injection h with h
              injection h with h1 h2
              subst h1; subst h2
              -- the arithmetic of the offsets
              obtain ⟨a1, a2, a3, a4⟩ := slice_ok _ _ _ _ hnum
              obtain ⟨b1, b2, b3, b4⟩ := slice_ok _ _ _ _ hprobe
              obtain ⟨c1, c2, c3, c4⟩ := slice_ok _ _ _ _ hs1
              obtain ⟨d1, d2, d3⟩ := sliceFrom_ok _ _ _ hr1
              obtain ⟨g1, g2⟩ := Atoi_range _ _ hat
              have hile := indexNat_le _ _ _ hi
              have hspec := indexNat_spec _ _ _ hi
              simp only [RESP_SEPARATOR, List.length_cons, List.length_nil] at hile hspec c1 c2 c4
              have hsepeq : probe = [13, 10] := by
                simpa [RESP_SEPARATOR] using hsep
              unfold maxInt at hlen
              generalize hL : wrapInt ((i : Int) + 2 + strLen) = L at *
              generalize hW : wrapInt (L + 2) = W at *
              generalize hV : wrapInt ((i : Int) + ((0 + 1 + 1 : Nat) : Int)) = V at *
              have hLv : L = (i : Int) + 2 + strLen := by
                unfold wrapInt at hL; omega
              have hWv : W = L + 2 := by
                unfold wrapInt at hW; omega
              have hVv : V = (i : Int) + 2 := by
                unfold wrapInt at hV; omega
              have hsl : 0 ≤ strLen := by omega
              obtain ⟨n, rfl⟩ : ∃ n : Nat, strLen = (n : Int) := ⟨strLen.toNat, by omega⟩
              have eL : L.toNat = i + 2 + n := by clear * - hLv; omega
              have eW2 : W.toNat = i + 2 + n + 2 := by clear * - hLv hWv; omega
              have eV : V.toNat = i + 2 := by clear * - hVv; omega
              have eVL : L.toNat - V.toNat = n := by rw [eL, eV]; clear * - hLv; omega
              rw [eL, eW2, show i + 2 + n + 2 - (i + 2 + n) = 2 by omega] at b4
              rw [eVL, eV] at c4
              rw [eW2] at d3
              simp only [Int.toNat_one, Int.toNat_ofNat] at a4
              have hlen_s : s1.length = n := by
                rw [c4, List.length_take, List.length_drop]
                have : i + 2 + n ≤ data.length := by clear * - c3 hLv; omega
                clear * - this; omega
              refine ⟨num, ?_, by rw [hlen_s]; exact hat⟩
              -- the head of the data is the `$` and the length text
              have hdata0 : data ≠ [] := by
                intro e; subst e; simp at hhead
              obtain ⟨c, cs, rfl⟩ := List.exists_cons_of_ne_nil hdata0
              have hc : c = 36 := by
                by_contra hne
                exact hhead (Or.inr (by simpa using hne))
              subst hc
              have hi1 : 1 ≤ i := by clear * - a2; omega
              obtain ⟨j, rfl⟩ : ∃ j, i = j + 1 := ⟨i - 1, by clear * - hi1; omega⟩
              have htake : List.take (j + 1) (36 :: cs) = 36 :: num := by
                rw [a4]; simp
              have hdrop1 : List.drop (j + 1 + 2) (36 :: cs)
                  = s1 ++ List.drop (j + 1 + 2 + n) (36 :: cs) := by
                rw [c4]
                have := List.take_append_drop n (List.drop (j + 1 + 2) (36 :: cs))
                rw [List.drop_drop] at this
                exact this.symm
              have hdrop2 : List.drop (j + 1 + 2 + n) (36 :: cs)
                  = [13, 10] ++ r1 := by
                rw [← hsepeq, b4, d3]
                have := List.take_append_drop 2 (List.drop (j + 1 + 2 + n) (36 :: cs))
                rw [List.drop_drop] at this
                exact this.symm
              rw [hspec]
              rw [htake, hdrop1, hdrop2]
              simp [frame]

/-- A loop that ends with every element parsed and nothing left has read one frame per
element and stored the payloads in order. -/
theorem parseLoop_sound (todo m : Nat) (pre : List GoString) (remainder : GoString)
    (arr3 : List GoString) (hlen : (remainder.length : Int) ≤ maxInt)
    (h : parseLoop todo pre.length remainder (pre ++ List.replicate (todo + m) [])
      = .ok (pre.length + todo, [], arr3)) :
    ∃ ps : List (GoString × GoString), ps.length = todo
      ∧ (∀ p ∈ ps, Atoi p.1 = .ok (p.2.length : Int))
      ∧ remainder = frames ps
      ∧ arr3 = pre ++ ps.map Prod.snd ++ List.replicate m [] := by
  induction todo generalizing pre remainder with
  | zero =>
    simp only [parseLoop] at h
    injection h with h
    injection h with _ h
    injection h with h1 h2
    refine ⟨[], rfl, by simp, ?_, ?_⟩
    · simpa [frames] using h1
    · simpa using h2.symm
  | succ todo ih =>
    unfold parseLoop at h
    split at h
    · rename_i hpos
      cases hb : parseRespBulkStrings remainder with
      | error p => rw [hb] at h; cases h
      | ok r =>
        obtain ⟨s, remainder1⟩ := r
        rw [hb] at h
        dsimp only at h
        split at h
        · injection h with h
          injection h with h0 _
          omega
        · rename_i hs
          obtain ⟨t, hdata, hat⟩ := parseRespBulkStrings_ok remainder s remainder1 hlen hb hs
          have e2 : List.replicate (todo + 1 + m) ([] : GoString)
              = [] :: List.replicate (todo + m) [] := by
            rw [show todo + 1 + m = (todo + m) + 1 by omega, List.replicate_succ]
          rw [e2, set_length_append] at h
          have hlen1 : (remainder1.length : Int) ≤ maxInt := by
            have : remainder1.length ≤ remainder.length := by
              rw [hdata, List.length_append]; omega
            omega
          have h3 : parseLoop todo (pre ++ [s]).length remainder1
              ((pre ++ [s]) ++ List.replicate (todo + m) [])
              = .ok ((pre ++ [s]).length + todo, [], arr3) := by
            simp only [List.length_append, List.length_singleton, List.append_assoc,
              List.singleton_append]
            rw [h, show pre.length + 1 + todo = pre.length + (todo + 1) by omega]
          obtain ⟨ps, hp1, hp2, hp3, hp4⟩ := ih (pre ++ [s]) remainder1 hlen1 h3
          refine ⟨(t, s) :: ps, by simp [hp1], ?_, ?_, ?_⟩
          · intro p hp
            rcases List.mem_cons.1 hp with hp | hp
            · subst hp; exact hat
            · exact hp2 p hp
          · rw [hdata, hp3]; rfl
          · rw [hp4]; simp
    · injection h with h
      injection h with h0 _
      omega

/-- A bulk string whose declared length exceeds the bytes that follow its length line ends
`parseRespBulkStrings` in a slice fault, for every such input. -/
theorem parseRespBulkStrings_overlong (t tail : GoString) (L : Int) (ht : ∀ c ∈ t, c ≠ 13)
    (hat : Atoi t = .ok L) (hL : (tail.length : Int) < L)
    (hlen : (([36] ++ t ++ [13, 10] ++ tail).length : Int) ≤ maxInt) :
    parseRespBulkStrings ([36] ++ t ++ [13, 10] ++ tail) = .error .sliceBounds := by
  have hdata : [36] ++ t ++ [13, 10] ++ tail = (36 :: t) ++ 13 :: 10 :: tail := by simp
  have hlenv : ([36] ++ t ++ [13, 10] ++ tail).length = t.length + 3 + tail.length := by
    simp; omega
  rw [hlenv] at hlen
  rw [hdata]
  have hlen2 : ((36 :: t) ++ 13 :: 10 :: tail).length = t.length + 3 + tail.length := by
    rw [← hdata, hlenv]
  have hidx : Index ((36 :: t) ++ 13 :: 10 :: tail) RESP_SEPARATOR
      = ((t.length + 1 : Nat) : Int) := by
    have hpre : ∀ c ∈ (36 :: t : GoString), c ≠ 13 := by
      intro c hc
      rcases List.mem_cons.1 hc with hc | hc
      · subst hc; decide
      · exact ht c hc
    unfold Index RESP_SEPARATOR
    rw [indexNat_crlf_append (36 :: t) tail hpre]
    simp
  obtain ⟨g1, g2⟩ := Atoi_range _ _ hat
  unfold maxInt at hlen
  have h1 : slice ((36 :: t) ++ 13 :: 10 :: tail) 1 ((t.length + 1 : Nat) : Int) = .ok t := by
    rw [slice_of_nat _ 1 _ 1 (t.length + 1) (by norm_num) rfl (by omega)
      (by rw [hlen2]; omega)]
    simp
  have h2 : slice ((36 :: t) ++ 13 :: 10 :: tail)
      (wrapInt (((t.length + 1 : Nat) : Int) + 2 + L))
      (wrapInt (wrapInt (((t.length + 1 : Nat) : Int) + 2 + L) + 2))
      = .error .sliceBounds := by
    unfold slice
    rw [if_neg]
    rw [hlen2]
    clear * - hlen g1 g2 hL
    unfold wrapInt
    push_cast
    omega
  unfold parseRespBulkStrings
  rw [if_neg (by simp)]
  dsimp only
  rw [hidx, if_neg (by omega), h1, bind_ok, hat]
  dsimp only
  rw [h2, bind_error]

/-! ## The decoder: claims -/

/-- C1 fails on the code: the one-element command whose element is the empty string is a
non-empty sequence of strings without a line terminator, and its request is rejected with
the error of unparsed items instead of being decoded back. `parseRespBulkStrings` parses
the zero-length frame by its success path and consumes it, where its failure paths hand
the data back untouched; `parseRespArray` takes the empty payload for a failed parse. The
rest of the program handles the empty string: it is serialized, stored and read back. -/
theorem parseRespArray_request_empty_string :
    ([[]] : List GoString) ≠ []
      ∧ (∀ s ∈ ([[]] : List GoString), Index s (ascii "\r\n") = -1)
      ∧ request [[]] = ascii "*1\r\n$0\r\n\r\n"
      ∧ parseRespArray (request [[]]) = .ok ([], some .unparsedItems)
      ∧ parseRespArray (request [[]]) ≠ .ok ([[]], none)
      ∧ parseRespBulkStrings (ascii "$0\r\n\r\n") = .ok ([], [])
      ∧ parseRespBulkStrings (ascii "0\r\n\r\n") = .ok ([], ascii "0\r\n\r\n")
      ∧ (handleCommand id [] (STORE.Set (ascii "k") []) [ascii "GET", ascii "k"]).1
        = [ascii "$0\r\n\r\n"] := by
  decide

/-- C5, as stated, fails: a declared count that does not fit an `int` is greater than the
number of elements that follow, and the decoder returns the range error of `strconv.Atoi`
for it, not the error of unparsed items. -/
theorem parseRespArray_count_out_of_range :
    ([] : List GoString).length < 9223372036854775808
      ∧ [42] ++ fmtNat 9223372036854775808 ++ resp.RESP_SEPARATOR ++ bulkStrings []
        = ascii "*9223372036854775808\r\n"
      ∧ parseRespArray (ascii "*9223372036854775808\r\n")
        = .ok ([], some (.numError (ascii "9223372036854775808") .outOfRange))
      ∧ parseRespArray (ascii "*9223372036854775808\r\n") ≠ .ok ([], some .unparsedItems) := by
  decide

/-- Declared counts between the allocator's limit and the largest `int` end the decoder in
the fault of `make`, just above `2 ^ 44` and at `2 ^ 63 - 1` alike. -/
theorem parseRespArray_count_beyond_maxAlloc :
    parseRespArray (ascii "*17592186044417\r\n") = .error .makesliceLen
      ∧ parseRespArray (ascii "*9223372036854775807\r\n") = .error .makesliceLen := by
  decide

/-- C5, amended: for every list `xs` of non-empty strings and every declared count `N`
greater than `len(xs)` and small enough for `make([]string, N)` to allocate (`N` strings
within `maxAlloc`, that is `N` at most `2 ^ 44`), the decoder applied to the header of `N`
followed by the bulk-string encodings of `xs` returns the error of unparsed items and no
array. (The input is a Go string, so its length fits an `int`.) -/
theorem parseRespArray_too_few (xs : List GoString) (N : Nat) (hne : ∀ s ∈ xs, s ≠ [])
    (hN : xs.length < N) (hNmax : stringSize * (N : Int) ≤ maxAlloc)
    (hlen : (([42] ++ fmtNat N ++ resp.RESP_SEPARATOR ++ bulkStrings xs).length : Int)
      ≤ maxInt) :
    parseRespArray ([42] ++ fmtNat N ++ resp.RESP_SEPARATOR ++ bulkStrings xs)
      = .ok ([], some .unparsedItems) := by
  obtain ⟨k, rfl⟩ : ∃ k, N = xs.length + (k + 1) := ⟨N - xs.length - 1, by omega⟩
  have e : [42] ++ fmtNat (xs.length + (k + 1)) ++ resp.RESP_SEPARATOR ++ bulkStrings xs
      = [42] ++ fmtNat (xs.length + (k + 1)) ++ [13, 10] ++ bulkStrings xs ++ [] := by
    simp [resp.RESP_SEPARATOR]
  rw [e] at hlen ⊢
  rw [parseRespArray_bulkStrings xs (k + 1) [] hne hNmax hlen]
  simp only [parseLoop, List.length_nil, gt_iff_lt, lt_self_iff_false, if_false, bind_ok]
  rw [if_pos (Or.inr (by push_cast; omega))]
  rfl

/-- C5, amended, at the truncated request that declares two elements and carries `hello`
only. -/
theorem parseRespArray_too_few_witness :
    parseRespArray ([42] ++ fmtNat 2 ++ resp.RESP_SEPARATOR ++ bulkStrings [ascii "hello"])
      = .ok ([], some .unparsedItems) :=
  parseRespArray_too_few [ascii "hello"] 2 (by decide) (by decide) (by decide) (by decide)

/-- C6: for every list `xs` of non-empty strings and every non-empty byte string `G`, the
decoder applied to `BulkStringArray.Serialize(xs)` followed by `G` returns the error of
unparsed items and no array, whatever `G` contains. (`xs` is a Go slice, so its elements
fit within `maxAlloc`, and the input is a Go string, so its length fits an `int`.) -/
theorem parseRespArray_trailing (xs : List GoString) (G : GoString) (hne : ∀ s ∈ xs, s ≠ [])
    (hG : G ≠ []) (hxs : stringSize * (xs.length : Int) ≤ maxAlloc)
    (hlen : ((resp.BulkStringArray.Serialize ⟨xs.map resp.BulkString.mk⟩ ++ G).length : Int)
      ≤ maxInt) :
    parseRespArray (resp.BulkStringArray.Serialize ⟨xs.map resp.BulkString.mk⟩ ++ G)
      = .ok ([], some .unparsedItems) := by
  have e : resp.BulkStringArray.Serialize ⟨xs.map resp.BulkString.mk⟩ ++ G
      = [42] ++ fmtNat (xs.length + 0) ++ [13, 10] ++ bulkStrings xs ++ G := by
    have := request_eq_bulkStrings xs
    unfold request at this
    rw [this]; simp
  rw [e] at hlen ⊢
  have hk : stringSize * ((xs.length + 0 : Nat) : Int) ≤ maxAlloc := by
    simpa using hxs
  rw [parseRespArray_bulkStrings xs 0 G hne hk hlen]
  simp only [parseLoop, bind_ok]
  rw [if_pos (Or.inl (List.length_pos.2 hG))]
  rfl

/-- C6 at a request for `hello` followed by one more well-formed bulk string. -/
theorem parseRespArray_trailing_witness :
    parseRespArray (resp.BulkStringArray.Serialize ⟨[ascii "hello"].map resp.BulkString.mk⟩
        ++ ascii "$5\r\nworld\r\n")
      = .ok ([], some .unparsedItems) :=
  parseRespArray_trailing [ascii "hello"] (ascii "$5\r\nworld\r\n") (by decide) (by decide)
    (by decide) (by decide)

/-- C2: whenever the decoder returns an array `arr` and no error, the input is the marker
`*`, a count text that ends at the first line terminator and parses to `len(arr)`, the
terminator, and then exactly one frame per element of `arr`, in order: `$`, a length text
that parses to the length of the element, the terminator, the element, the terminator;
nothing follows the last frame. (The input is a Go string, so its length fits an `int`.) -/
theorem parseRespArray_sound (data : GoString) (arr : List GoString)
    (hlen : (data.length : Int) ≤ maxInt) (h : parseRespArray data = .ok (arr, none)) :
    ∃ (cnt : GoString) (ps : List (GoString × GoString)),
      Index data (ascii "\r\n") = (cnt.length : Int) + 1
        ∧ Atoi cnt = .ok (arr.length : Int)
        ∧ ps.map Prod.snd = arr
        ∧ (∀ p ∈ ps, Atoi p.1 = .ok (p.2.length : Int))
        ∧ data = [42] ++ cnt ++ [13, 10] ++ frames ps := by
  unfold parseRespArray at h
  split at h
  · cases h
  rename_i hhead
  rw [ascii_crlf] at h ⊢
  dsimp only at h
  cases hnum : slice data 1 (Index data [13, 10]) with
  | error p => rw [hnum, bind_error] at h; cases h
  | ok num =>
    rw [hnum, bind_ok] at h
    obtain ⟨a1, a2, a3, a4⟩ := slice_ok _ _ _ _ hnum
    cases hi : indexNat [13, 10] data with
    | none =>
      have : Index data [13, 10] = -1 := by simp [Index, hi]
      rw [this] at a2; omega
    | some i =>
      have hI : Index data [13, 10] = (i : Int) := by simp [Index, hi]
      rw [hI] at h a2 a4
      cases hat : Atoi num with
      | error e => rw [hat] at h; cases h
      | ok arrLen =>
        rw [hat] at h
        dsimp only at h
        split at h
        · cases h
        rename_i hneg
        cases hrem : sliceFrom data (wrapInt ((i : Int) + 2)) with
        | error p => rw [hrem, bind_error] at h; cases h
        | ok remainder =>
          rw [hrem, bind_ok] at h
          cases hloop : parseLoop arrLen.toNat 0 remainder
              (List.replicate arrLen.toNat []) with
          | error p => rw [hloop, bind_error] at h; cases h
          | ok r =>
            obtain ⟨arrIdx, remainder1, arr3⟩ := r
            rw [hloop, bind_ok] at h
            dsimp only at h
            split at h
            · cases h
            rename_i hfin
            injection h with h
            injection h with h _
            subst h
            have hile := indexNat_le _ _ _ hi
            have hspec := indexNat_spec _ _ _ hi
            simp only [List.length_cons, List.length_nil] at hile hspec
            obtain ⟨d1, d2, d3⟩ := sliceFrom_ok _ _ _ hrem
            unfold maxInt at hlen
            have hw : wrapInt ((i : Int) + 2) = ((i + 2 : Nat) : Int) := by
              rw [wrapInt_of_range _ (by omega) (by omega)]; omega
            rw [hw, Int.toNat_ofNat] at d3
            have hrem0 : remainder1 = [] := by
              cases remainder1 with
              | nil => rfl
              | cons c cs => exact absurd (Or.inl (by simp)) hfin
            have hidx : (arrIdx : Int) = arrLen := by
              by_contra hne
              exact hfin (Or.inr hne)
            obtain ⟨n, rfl⟩ : ∃ n : Nat, arrLen = (n : Int) :=
              ⟨arrLen.toNat, by
                have hneg0 : ¬ arrLen < 0 := fun hlt => hneg (Or.inl hlt)
                clear * - hneg0; omega⟩
            have hidx2 : arrIdx = n := by clear * - hidx; omega
            subst hidx2; subst hrem0
            rw [Int.toNat_ofNat] at hloop
            have hlenr : (remainder.length : Int) ≤ maxInt := by
              rw [d3, List.length_drop]; unfold maxInt; clear * - hlen; omega
            have hl := parseLoop_sound arrIdx 0 [] remainder arr3 hlenr
              (by simpa using hloop)
            obtain ⟨ps, hp1, hp2, hp3, hp4⟩ := hl
            simp only [List.replicate_zero, List.append_nil, List.nil_append] at hp4
            have hdata0 : data ≠ [] := by
              intro e; subst e; simp at hhead
            obtain ⟨c, cs, rfl⟩ := List.exists_cons_of_ne_nil hdata0
            have hc : c = 42 := by
              by_contra hne
              exact hhead (Or.inr (by simpa using hne))
            subst hc
            have hi1 : 1 ≤ i := by clear * - a2; omega
            obtain ⟨j, rfl⟩ : ∃ j, i = j + 1 := ⟨i - 1, by clear * - hi1; omega⟩
            simp only [Int.toNat_one, Int.toNat_ofNat] at a4
            have hnl : num.length = j := by
              rw [a4, List.length_take, List.length_drop]
              have : j + 1 + 2 ≤ (42 :: cs).length := hile
              simp only [List.length_cons] at this ⊢
              clear * - this; omega
            refine ⟨num, ps, ?_, ?_, hp4.symm, hp2, ?_⟩
            · rw [hI, hnl]; push_cast; rfl
            · rw [hat, hp4, List.length_map, hp1]
            · have htake : List.take (j + 1) (42 :: cs) = 42 :: num := by
                rw [a4]; simp
              rw [hspec, htake, ← d3, hp3]
              simp

/-- C2 at the request for `hello world`. -/
theorem parseRespArray_sound_witness :
    ∃ (cnt : GoString) (ps : List (GoString × GoString)),
      Index (ascii "*2\r\n$5\r\nhello\r\n$5\r\nworld\r\n") (ascii "\r\n")
          = (cnt.length : Int) + 1
        ∧ Atoi cnt = .ok (([ascii "hello", ascii "world"] : List GoString).length : Int)
        ∧ ps.map Prod.snd = [ascii "hello", ascii "world"]
        ∧ (∀ p ∈ ps, Atoi p.1 = .ok (p.2.length : Int))
        ∧ ascii "*2\r\n$5\r\nhello\r\n$5\r\nworld\r\n" = [42] ++ cnt ++ [13, 10] ++ frames ps :=
  parseRespArray_sound (ascii "*2\r\n$5\r\nhello\r\n$5\r\nworld\r\n")
    [ascii "hello", ascii "world"] (by decide) (by decide)

/-- C3 fails on the code: an input that starts with `*` and has no line terminator, a
negative element count, and a negative bulk length each end the decoder in a runtime
fault instead of a decode error. -/
theorem parseRespArray_faults :
    parseRespArray (ascii "*") = .error .sliceBounds
      ∧ parseRespArray (ascii "*2") = .error .sliceBounds
      ∧ parseRespArray (ascii "*-1\r\n") = .error .makesliceLen
      ∧ parseRespArray (ascii "*1\r\n$-9\r\n") = .error .sliceBounds := by
  decide

/-- C4 fails on the code: a bulk string that declares nine bytes and carries three ends
`parseRespBulkStrings`, and with it `parseRespArray`, in a runtime fault; so does a
declared length that exceeds the payload by one. -/
theorem parseRespBulkStrings_overlong_faults :
    parseRespBulkStrings (ascii "$9\r\nabc\r\n") = .error .sliceBounds
      ∧ parseRespArray (ascii "*1\r\n$9\r\nabc\r\n") = .error .sliceBounds
      ∧ parseRespBulkStrings (ascii "$4\r\nabc\r\n") = .error .sliceBounds
      ∧ parseRespArray (ascii "*1\r\n$4\r\nabc\r\n") = .error .sliceBounds := by
  decide

/-- C7, as stated, fails: the input `*x` followed by the line terminator begins with `*`
and its count text `x` is not an integer, yet the error returned is the one of
`strconv.Atoi`, not the error `invalid array` of an input without the marker. -/
theorem parseRespArray_bad_count_not_invalidArray :
    (ascii "*x\r\n").head? = some 42
      ∧ Atoi (ascii "x") = .error (.numError (ascii "x") .malformed)
      ∧ parseRespArray (ascii "*x\r\n") = .ok ([], some (.numError (ascii "x") .malformed))
      ∧ parseRespArray (ascii "*x\r\n") ≠ .ok ([], some .invalidArray)
      ∧ parseRespArray (ascii "x") = .ok ([], some .invalidArray) := by
  decide

/-- C7, amended: for every input that begins with `*`, contains a line terminator, and
whose text between the `*` and the first line terminator is rejected by `strconv.Atoi`,
the decoder returns no array and the error of `strconv.Atoi` for that text, which is not
the error `invalid array`. -/
theorem parseRespArray_bad_count (data : GoString) (i : Nat) (e : GoError)
    (h0 : data.head? = some 42) (hi : Index data (ascii "\r\n") = (i : Int))
    (he : Atoi ((data.drop 1).take (i - 1)) = .error e) :
    parseRespArray data = .ok ([], some e)
      ∧ e ≠ .invalidArray
      ∧ ∃ kind, e = .numError ((data.drop 1).take (i - 1)) kind := by
  have hkind : ∃ kind, e = .numError ((data.drop 1).take (i - 1)) kind := by
    unfold Atoi at he
    split at he
    · rename_i k _
      injection he with he
      exact ⟨k, he.symm⟩
    · cases he
  obtain ⟨c, cs, rfl⟩ : ∃ c cs, data = c :: cs := by
    cases data with
    | nil => simp at h0
    | cons c cs => exact ⟨c, cs, rfl⟩
  have hc : c = 42 := by simpa using h0
  subst hc
  rw [ascii_crlf] at hi
  have hi1 : 1 ≤ i := by
    have hcons : indexNat [13, 10] (42 :: cs)
        = (indexNat [13, 10] cs).map (· + 1) := by
      have h42 : ¬ (13 : Byte) = 42 := by decide
      simp [indexNat, List.isPrefixOf, h42]
    unfold Index at hi
    rw [hcons] at hi
    cases hj : indexNat [13, 10] cs with
    | none => rw [hj] at hi; simp at hi
    | some j =>
      rw [hj] at hi
      simp only [Option.map_some'] at hi
      omega
  have hile : i ≤ (42 :: cs : GoString).length := by
    unfold Index at hi
    cases hj : indexNat [13, 10] (42 :: cs) with
    | none => rw [hj] at hi; simp at hi
    | some j =>
      rw [hj] at hi
      have := indexNat_le _ _ _ hj
      simp only [Nat.cast_inj] at hi
      subst hi
      omega
  refine ⟨?_, ?_, hkind⟩
  · unfold parseRespArray
    rw [if_neg (by simp), ascii_crlf]
    dsimp only
    rw [hi, slice_of_nat _ 1 _ 1 i (by norm_num) rfl hi1 hile, bind_ok, he]
    rfl
  · obtain ⟨k, hk⟩ := hkind
    rw [hk]
    exact fun h => GoError.noConfusion h

/-- C7, amended, at the input `*x` followed by the line terminator. -/
theorem parseRespArray_bad_count_witness :
    parseRespArray (ascii "*x\r\n") = .ok ([], some (.numError (ascii "x") .malformed))
      ∧ GoError.numError (ascii "x") .malformed ≠ .invalidArray
      ∧ ∃ kind, GoError.numError (ascii "x") .malformed
          = .numError (((ascii "*x\r\n").drop 1).take (2 - 1)) kind :=
  parseRespArray_bad_count (ascii "*x\r\n") 2 (.numError (ascii "x") .malformed)
    (by decide) (by decide) (by decide)

/-! ## The store and the dispatcher: claims -/

theorem runOps_data (store : Store) (k v : GoString) (ops : List StoreOp)
    (h : ∀ op ∈ ops, op.writes ≠ some k) (hk : store.data k = some v) :
    (runOps store ops).data k = some v := by
  induction ops generalizing store with
  | nil => exact hk
  | cons op ops ih =>
    have hop := h op (List.mem_cons_self _ _)
    have hrest : ∀ o ∈ ops, o.writes ≠ some k := fun o ho => h o (List.mem_cons_of_mem _ ho)
    show (runOps (StoreOp.run store op) ops).data k = some v
    apply ih _ hrest
    cases op with
    | get k1 => exact hk
    | set k1 v1 =>
      have hne : k ≠ k1 := by
        intro e
        exact hop (by rw [e]; rfl)
      simp [StoreOp.run, Store.Set, hne, hk]

/-- C8: for every store state, key `k` and value `v`, after `Set(k, v)` followed by any
finite sequence of `Get` calls and of `Set` calls on keys different from `k`, `Get(k)`
returns `(v, true)`. -/
theorem Store_get_after_set (store : Store) (k v : GoString) (ops : List StoreOp)
    (h : ∀ op ∈ ops, op.writes ≠ some k) :
    (runOps (store.Set k v) ops).Get k = (v, true) := by
  have := runOps_data (store.Set k v) k v ops h (by simp [Store.Set])
  simp [Store.Get, this]

/-- C8 on the initial store, with a read of the key and a write to another key between. -/
theorem Store_get_after_set_witness :
    (runOps (STORE.Set (ascii "foo") (ascii "bar"))
        [.get (ascii "foo"), .set (ascii "baz") (ascii "qux"), .get (ascii "baz")]).Get
      (ascii "foo") = (ascii "bar", true) :=
  Store_get_after_set STORE (ascii "foo") (ascii "bar")
    [.get (ascii "foo"), .set (ascii "baz") (ascii "qux"), .get (ascii "baz")] (by decide)

/-- C9: for every store state, key `k` and value `v`, `handleCommand` on `[SET, k, v]`
writes exactly `+OK` and the line terminator and returns no error, and `handleCommand` on
`[GET, k]` on the resulting store writes exactly `$`, the decimal byte length of `v`, the
line terminator, `v` and the line terminator, and returns no error; `k` and `v` are used
as they are. -/
theorem handleCommand_set_then_get (mapUpper : GoString → GoString) (conn conn1 : Conn)
    (store : Store) (k v : GoString) :
    handleCommand mapUpper conn store [ascii "SET", k, v]
        = (conn ++ [ascii "+OK\r\n"], store.Set k v, none)
      ∧ handleCommand mapUpper conn1
          (handleCommand mapUpper conn store [ascii "SET", k, v]).2.1 [ascii "GET", k]
        = (conn1 ++ [[36] ++ fmtNat v.length ++ ascii "\r\n" ++ v ++ ascii "\r\n"],
            store.Set k v, none) := by
  have hset : ToUpper mapUpper (ascii "SET") = ascii "SET" := rfl
  have hget : ToUpper mapUpper (ascii "GET") = ascii "GET" := rfl
  have h1 : ascii "SET" ≠ ascii "PING" := by decide
  have h2 : ascii "GET" ≠ ascii "PING" := by decide
  have h3 : ascii "GET" ≠ ascii "SET" := by decide
  have hs : handleCommand mapUpper conn store [ascii "SET", k, v]
      = (conn ++ [ascii "+OK\r\n"], store.Set k v, none) := by
    simp only [handleCommand, List.length_cons, List.length_nil, List.getD_cons_zero, hset, h1,
      if_false, if_true, handleSet, Conn.Write, resp.SimpleString.Serialize]
    rfl
  refine ⟨hs, ?_⟩
  rw [hs]
  have hk : ((store.Set k v).Get k) = (v, true) := by simp [Store.Get, Store.Set]
  simp only [handleCommand, List.length_cons, List.length_nil, List.getD_cons_zero, hget, h2,
    h3, if_false, if_true, handleGet, Conn.Write, resp.BulkString.Serialize]
  simp [hk, resp.RESP_SEPARATOR, ascii_crlf]

/-- C10: for every store state and every key `k` that is not in the store, `Store.Get(k)`
returns `found = false`, and `handleCommand` on `[GET, k]` writes exactly the bytes `$-1`
and the line terminator, returns no error and leaves the store unchanged. -/
theorem handleCommand_get_absent (mapUpper : GoString → GoString) (conn : Conn)
    (store : Store) (k : GoString) (h : store.data k = none) :
    (store.Get k).2 = false
      ∧ handleCommand mapUpper conn store [ascii "GET", k]
        = (conn ++ [ascii "$-1\r\n"], store, none) := by
  have hget : ToUpper mapUpper (ascii "GET") = ascii "GET" := rfl
  have h2 : ascii "GET" ≠ ascii "PING" := by decide
  have h3 : ascii "GET" ≠ ascii "SET" := by decide
  have hk : store.Get k = ([], false) := by simp [Store.Get, h]
  refine ⟨by rw [hk], ?_⟩
  simp only [handleCommand, List.length_cons, List.length_nil, List.getD_cons_zero, hget, h2,
    h3, if_false, if_true, handleGet, Conn.Write]
  simp [hk]
  rfl

/-- C10 on the initial, empty store: every key is absent from it. -/
theorem handleCommand_get_absent_witness :
    (∀ k : GoString, STORE.data k = none)
      ∧ (STORE.Get (ascii "foo")).2 = false
      ∧ handleCommand id [] STORE [ascii "GET", ascii "foo"]
        = ([] ++ [ascii "$-1\r\n"], STORE, none) :=
  ⟨fun _ => rfl, handleCommand_get_absent id [] STORE (ascii "foo") rfl⟩

/-- What `handleCommand` does on a non-empty array, by the upper-cased command name. -/
theorem handleCommand_cons (mapUpper : GoString → GoString) (conn : Conn) (store : Store)
    (name : GoString) (args : List GoString) :
    handleCommand mapUpper conn store (name :: args)
      = if ToUpper mapUpper name = ascii "PING" then
          (handlePing conn (name :: args), store, none)
        else if ToUpper mapUpper name = ascii "SET" then
          handleSet conn store (name :: args)
        else if ToUpper mapUpper name = ascii "GET" then
          ((handleGet conn store (name :: args)).1, store, (handleGet conn store (name :: args)).2)
        else
          (conn ++ [[45] ++ (ascii "unknown command: " ++ ToUpper mapUpper name) ++ [13, 10]],
            store, none) := by
  simp only [handleCommand, List.length_cons, List.getD_cons_zero, Nat.add_one_ne_zero,
    if_false]
  split
  · rfl
  · split
    · rcases h : handleSet conn store (name :: args) with ⟨c1, s1, e⟩
      cases e <;> rfl
    · split
      · rcases h : handleGet conn store (name :: args) with ⟨c1, e⟩
        cases e <;> rfl
      · rfl

/-- C11: for every store state and every command array whose first element upper-cases to
`PING`, `handleCommand` writes exactly `+PONG` and the line terminator when there is no
extra argument, and exactly the Bulk String of `a` when there is exactly one extra argument
`a`; in both cases it returns no error and leaves the store unchanged. -/
theorem handleCommand_ping (mapUpper : GoString → GoString) (conn : Conn) (store : Store)
    (name a : GoString) (h : ToUpper mapUpper name = ascii "PING") :
    handleCommand mapUpper conn store [name] = (conn ++ [ascii "+PONG\r\n"], store, none)
      ∧ handleCommand mapUpper conn store [name, a]
        = (conn ++ [[36] ++ fmtNat a.length ++ ascii "\r\n" ++ a ++ ascii "\r\n"],
            store, none) := by
  rw [handleCommand_cons, handleCommand_cons, if_pos h, if_pos h]
  constructor
  · rfl
  · simp [handlePing, Conn.Write, resp.BulkString.Serialize, resp.RESP_SEPARATOR, ascii_crlf]

/-- C11 at the lower-case name `ping`, alone and with the argument `hello`. -/
theorem handleCommand_ping_witness :
    handleCommand id [] STORE [ascii "ping"] = ([] ++ [ascii "+PONG\r\n"], STORE, none)
      ∧ handleCommand id [] STORE [ascii "ping", ascii "hello"]
        = ([] ++ [[36] ++ fmtNat (ascii "hello").length ++ ascii "\r\n" ++ ascii "hello"
            ++ ascii "\r\n"], STORE, none) :=
  handleCommand_ping id [] STORE (ascii "ping") (ascii "hello") (by decide)

/-- C12: for every store state and every non-empty command array whose first element
upper-cases to a name other than `PING`, `SET` and `GET`, `handleCommand` writes exactly
`-unknown command: `, the upper-cased name and the line terminator, returns no error, and
leaves the store unchanged. -/
theorem handleCommand_unknown (mapUpper : GoString → GoString) (conn : Conn) (store : Store)
    (name : GoString) (args : List GoString)
    (h1 : ToUpper mapUpper name ≠ ascii "PING") (h2 : ToUpper mapUpper name ≠ ascii "SET")
    (h3 : ToUpper mapUpper name ≠ ascii "GET") :
    handleCommand mapUpper conn store (name :: args)
      = (conn ++ [ascii "-unknown command: " ++ ToUpper mapUpper name ++ ascii "\r\n"],
          store, none) := by
  rw [handleCommand_cons, if_neg h1, if_neg h2, if_neg h3, ascii_crlf]
  rfl

/-- C12 at the command `foo bar`. -/
theorem handleCommand_unknown_witness :
    handleCommand id [] STORE (ascii "foo" :: [ascii "bar"])
      = ([] ++ [ascii "-unknown command: " ++ ToUpper id (ascii "foo") ++ ascii "\r\n"],
          STORE, none)
      ∧ ascii "-unknown command: " ++ ToUpper id (ascii "foo") ++ ascii "\r\n"
        = ascii "-unknown command: FOO\r\n" :=
  ⟨handleCommand_unknown id [] STORE (ascii "foo") [ascii "bar"] (by decide) (by decide)
    (by decide), by decide⟩

/-- C13: for every store state, every command array and every string `n` whose upper-case
form equals the upper-case form of the array's first element, `handleCommand` on the array
with its first element replaced by `n` writes the same bytes, returns the same error or
success, and produces the same store. -/
theorem handleCommand_case_insensitive (mapUpper : GoString → GoString) (conn : Conn)
    (store : Store) (name n : GoString) (args : List GoString)
    (h : ToUpper mapUpper n = ToUpper mapUpper name) :
    handleCommand mapUpper conn store (n :: args)
      = handleCommand mapUpper conn store (name :: args) := by
  rw [handleCommand_cons, handleCommand_cons, h]
  rfl

/-- C13 at `sEt foo bar` against `SET foo bar`. -/
theorem handleCommand_case_insensitive_witness :
    handleCommand id [] STORE (ascii "sEt" :: [ascii "foo", ascii "bar"])
      = handleCommand id [] STORE (ascii "SET" :: [ascii "foo", ascii "bar"]) :=
  handleCommand_case_insensitive id [] STORE (ascii "SET") (ascii "sEt")
    [ascii "foo", ascii "bar"] (by decide)

/-- C14: for every store state and every command array with fewer than 2 extra arguments
whose first element upper-cases to `SET`, `handleCommand` returns an error, writes no bytes
to the connection, and leaves the store unchanged. -/
theorem handleCommand_set_too_few (mapUpper : GoString → GoString) (conn : Conn)
    (store : Store) (name : GoString) (args : List GoString)
    (h : ToUpper mapUpper name = ascii "SET") (hargs : args.length < 2) :
    handleCommand mapUpper conn store (name :: args)
      = (conn, store, some .notEnoughArguments) := by
  have h1 : ascii "SET" ≠ ascii "PING" := by decide
  rw [handleCommand_cons, h, if_neg h1, if_pos rfl, handleSet,
    if_pos (by simp only [List.length_cons]; omega)]

/-- C14 at `set foo` on the initial store. -/
theorem handleCommand_set_too_few_witness :
    handleCommand id [] STORE (ascii "set" :: [ascii "foo"])
      = ([], STORE, some .notEnoughArguments) :=
  handleCommand_set_too_few id [] STORE (ascii "set") [ascii "foo"] (by decide) (by decide)

/-- C15: for every store state and every command array with no extra argument whose first
element upper-cases to `GET`, `handleCommand` writes exactly the one Simple Error reply
`-not enough arguments` and the line terminator, returns no error to the caller, and leaves
the store unchanged. -/
theorem handleCommand_get_no_key (mapUpper : GoString → GoString) (conn : Conn)
    (store : Store) (name : GoString) (h : ToUpper mapUpper name = ascii "GET") :
    handleCommand mapUpper conn store [name]
      = (conn ++ [ascii "-not enough arguments\r\n"], store, none) := by
  have h1 : ascii "GET" ≠ ascii "PING" := by decide
  have h2 : ascii "GET" ≠ ascii "SET" := by decide
  rw [handleCommand_cons, h, if_neg h1, if_neg h2, if_pos rfl]
  rfl

/-- C15 at `get` on the initial store. -/
theorem handleCommand_get_no_key_witness :
    handleCommand id [] STORE [ascii "get"]
      = ([] ++ [ascii "-not enough arguments\r\n"], STORE, none) :=
  handleCommand_get_no_key id [] STORE (ascii "get") (by decide)

/-- C16, as stated, fails: a `SET` with three extra arguments replies `+OK` and stores the
second extra argument under the first, so the store is modified. -/
theorem handleCommand_set_extra_argument :
    (handleCommand id [] STORE [ascii "SET", ascii "k", ascii "v", ascii "x"]).1
        = [ascii "+OK\r\n"]
      ∧ (handleCommand id [] STORE [ascii "SET", ascii "k", ascii "v", ascii "x"]).2.2 = none
      ∧ ((handleCommand id [] STORE [ascii "SET", ascii "k", ascii "v", ascii "x"]).2.1.Get
          (ascii "k")) = (ascii "v", true)
      ∧ STORE.Get (ascii "k") = ([], false) := by
  decide

/-- C16, amended: for every store state and every command array whose first element
upper-cases to `SET`, `handleCommand` writes to the store and replies `+OK` and the next
line terminator exactly when the array has at least 2 extra arguments; it stores the second
extra argument under the first and ignores any further ones; with fewer than 2 extra
arguments it writes nothing and leaves the store unchanged. -/
theorem handleCommand_set_arity (mapUpper : GoString → GoString) (conn : Conn)
    (store : Store) (name : GoString) (args : List GoString)
    (h : ToUpper mapUpper name = ascii "SET") :
    handleCommand mapUpper conn store (name :: args)
      = if 2 ≤ args.length then
          (conn ++ [ascii "+OK\r\n"], store.Set (args.getD 0 []) (args.getD 1 []), none)
        else (conn, store, some .notEnoughArguments) := by
  have h1 : ascii "SET" ≠ ascii "PING" := by decide
  rw [handleCommand_cons, h, if_neg h1, if_pos rfl, handleSet]
  by_cases hl : 2 ≤ args.length
  · rw [if_pos hl, if_neg (by simp only [List.length_cons]; omega)]
    rfl
  · rw [if_neg hl, if_pos (by simp only [List.length_cons]; omega)]

/-- C16, amended, at `set k v x` on the initial store. -/
theorem handleCommand_set_arity_witness :
    handleCommand id [] STORE (ascii "set" :: [ascii "k", ascii "v", ascii "x"])
      = if 2 ≤ [ascii "k", ascii "v", ascii "x"].length then
          ([] ++ [ascii "+OK\r\n"],
            STORE.Set ([ascii "k", ascii "v", ascii "x"].getD 0 [])
              ([ascii "k", ascii "v", ascii "x"].getD 1 []), none)
        else ([], STORE, some .notEnoughArguments) :=
  handleCommand_set_arity id [] STORE (ascii "set") [ascii "k", ascii "v", ascii "x"]
    (by decide)

/-! ## Replies, locking and binary-safe payloads: claims -/

theorem indexNat_crlf_cons (c : Byte) (cs : GoString) (hc : c ≠ 13) :
    indexNat [13, 10] (c :: cs) = (indexNat [13, 10] cs).map (· + 1) := by
  have hc2 : ¬ (13 : Byte) = c := fun e => hc e.symm
  simp [indexNat, List.isPrefixOf, hc2]

theorem noTerminator_append (pre s : GoString) (hpre : ∀ c ∈ pre, c ≠ 13)
    (hs : NoTerminator s) : NoTerminator (pre ++ s) := by
  induction pre with
  | nil => exact hs
  | cons c cs ih =>
    unfold NoTerminator at *
    rw [List.cons_append, indexNat_crlf_cons c _ (hpre c (List.mem_cons_self _ _)),
      ih (fun d hd => hpre d (List.mem_cons_of_mem _ hd))]
    rfl

set_option maxRecDepth 8000 in
theorem unknownCommand_no_cr : ∀ c ∈ ascii "unknown command: ", c ≠ 13 := by
  decide

theorem wellFormedReply_bulk (P : GoString) :
    WellFormedReply (resp.BulkString.Serialize ⟨P⟩) :=
  Or.inr (Or.inr (Or.inr ⟨P, rfl⟩))

/-- C17, as stated, fails: the decoder delivers the one-element command whose name holds a
line terminator, and the reply `handleCommand` writes for it is a Simple Error with that
line terminator inside its payload, which is not one complete RESP value. -/
theorem handleCommand_reply_with_terminator :
    parseRespArray (request [ascii "a\r\nb"]) = .ok ([ascii "a\r\nb"], none)
      ∧ (handleCommand id [] STORE [ascii "a\r\nb"]).1
        = [ascii "-unknown command: A\r\nB\r\n"]
      ∧ ¬ WellFormedReply (ascii "-unknown command: A\r\nB\r\n") := by
  refine ⟨by decide, by decide, ?_⟩
  have e : ascii "-unknown command: A\r\nB\r\n"
      = 45 :: (ascii "unknown command: A\r\nB" ++ [13, 10]) := by decide
  rw [e]
  rintro (⟨S, hS, _⟩ | ⟨S, hS, hN⟩ | h | ⟨P, hP⟩)
  · have h0 := congrArg List.head? hS
    simp only [List.head?_cons, List.singleton_append, List.cons_append] at h0
    exact absurd h0 (by decide)
  · simp only [List.singleton_append, List.cons_append, List.cons.injEq, true_and] at hS
    have hSX : ascii "unknown command: A\r\nB" = S := List.append_cancel_right hS
    rw [← hSX] at hN
    revert hN
    unfold NoTerminator
    decide
  · have h0 := congrArg List.head? h
    simp only [List.head?_cons] at h0
    exact absurd h0 (by decide)
  · have h0 := congrArg List.head? hP
    simp only [List.head?_cons, List.singleton_append, List.cons_append] at h0
    exact absurd h0 (by decide)

/-- C17, amended: for every store state and every command array whose upper-cased command
name holds no line terminator, `handleCommand` writes at most one byte sequence, and what
it writes is exactly one complete RESP value: a Simple String or Simple Error with no line
terminator in its payload, the Null Bulk String, or a Bulk String whose payload has the
declared length. -/
theorem handleCommand_reply_wellFormed (mapUpper : GoString → GoString) (conn : Conn)
    (store : Store) (arr : List GoString)
    (h : NoTerminator (ToUpper mapUpper (arr.getD 0 []))) :
    ∃ ws : List GoString, (handleCommand mapUpper conn store arr).1 = conn ++ ws
      ∧ ws.length ≤ 1 ∧ ∀ b ∈ ws, WellFormedReply b := by
  cases arr with
  | nil => exact ⟨[], by simp [handleCommand], by simp, by simp⟩
  | cons name args =>
    rw [List.getD_cons_zero] at h
    rw [handleCommand_cons]
    have one : ∀ b : GoString, WellFormedReply b →
        ∃ ws : List GoString, conn ++ [b] = conn ++ ws ∧ ws.length ≤ 1
          ∧ ∀ c ∈ ws, WellFormedReply c := by
      intro b hb
      refine ⟨[b], rfl, by simp, ?_⟩
      intro c hc
      rw [List.mem_singleton] at hc
      rw [hc]; exact hb
    split
    · -- PING
      dsimp only
      unfold handlePing
      split
      · exact one _ (wellFormedReply_bulk _)
      · exact one _ (Or.inl ⟨ascii "PONG", rfl, by unfold NoTerminator; decide⟩)
    · split
      · -- SET
        unfold handleSet
        split
        · exact ⟨[], by simp, by simp, by simp⟩
        · exact one _ (Or.inl ⟨ascii "OK", rfl, by unfold NoTerminator; decide⟩)
      · split
        · -- GET
          dsimp only
          unfold handleGet
          split
          · exact one _ (Or.inr (Or.inl ⟨ascii "not enough arguments", rfl,
              by unfold NoTerminator; decide⟩))
          · dsimp only
            split
            · exact one _ (Or.inr (Or.inr (Or.inl rfl)))
            · exact one _ (wellFormedReply_bulk _)
        · -- an unknown command
          dsimp only
          refine one _ (Or.inr (Or.inl ⟨ascii "unknown command: " ++ ToUpper mapUpper name,
            rfl, ?_⟩))
          exact noTerminator_append _ _ unknownCommand_no_cr h

/-- C17, amended, at the unknown command `foo`. -/
theorem handleCommand_reply_wellFormed_witness :
    ∃ ws : List GoString, (handleCommand id [] STORE [ascii "foo"]).1 = [] ++ ws
      ∧ ws.length ≤ 1 ∧ ∀ b ∈ ws, WellFormedReply b :=
  handleCommand_reply_wellFormed id [] STORE [ascii "foo"] (by unfold NoTerminator; decide)

/-- C18 fails on the code: `Store.Set` takes the lock with `RLock`, in shared mode, so
two `Set` calls on distinct keys reach their map assignments at the same time, both
holding the lock; and `Store.Get` takes it with `Lock`, in exclusive mode, so a second
`Get` has to wait for the first, and a `Get` has to wait while a `Set` holds the lock. -/
theorem Store_Set_not_exclusive :
    ((Shared.mk ⟨0, false⟩ STORE
          [Store.SetStmts (ascii "a") (ascii "1"), Store.SetStmts (ascii "b") (ascii "2")]).run
        [0, 1]).map (fun s => (s.lock, s.goroutines.map atMapWrite))
        = some (⟨2, false⟩, [true, true])
      ∧ ((Shared.mk ⟨0, false⟩ STORE
          [Store.GetStmts (ascii "a"), Store.GetStmts (ascii "b")]).run
        [0, 1]).isNone = true
      ∧ ((Shared.mk ⟨0, false⟩ STORE
          [Store.SetStmts (ascii "a") (ascii "1"), Store.GetStmts (ascii "a")]).run
        [0, 1]).isNone = true := by
  decide

/-- C19: for every finite sequence `xs`, the empty one included, of non-empty strings,
which may contain the line terminator or any other bytes, decoding
`BulkStringArray.Serialize(xs)` returns exactly `xs` and no error. (`xs` is a Go slice,
so its elements fit within `maxAlloc`, and the request is a Go string, so its length fits
an `int`.) -/
theorem parseRespArray_request_binary_safe (xs : List GoString) (hne : ∀ s ∈ xs, s ≠ [])
    (hxs : stringSize * (xs.length : Int) ≤ maxAlloc)
    (hlen : ((resp.BulkStringArray.Serialize ⟨xs.map resp.BulkString.mk⟩).length : Int)
      ≤ maxInt) :
    parseRespArray (resp.BulkStringArray.Serialize ⟨xs.map resp.BulkString.mk⟩)
      = .ok (xs, none) :=
  parseRespArray_request xs hne hxs hlen

/-- C19 at a command whose elements hold line terminators and frame markers, and at the
empty sequence. -/
theorem parseRespArray_request_binary_safe_witness :
    parseRespArray (resp.BulkStringArray.Serialize
        ⟨[ascii "a\r\nb", ascii "$3\r\n", ascii "\r\n"].map resp.BulkString.mk⟩)
        = .ok ([ascii "a\r\nb", ascii "$3\r\n", ascii "\r\n"], none)
      ∧ parseRespArray (resp.BulkStringArray.Serialize
          ⟨([] : List GoString).map resp.BulkString.mk⟩) = .ok ([], none) :=
  ⟨parseRespArray_request_binary_safe [ascii "a\r\nb", ascii "$3\r\n", ascii "\r\n"]
      (by decide) (by decide) (by decide),
    parseRespArray_request_binary_safe [] (by decide) (by decide) (by decide)⟩

/-- A loop that ends with every element parsed has stored non-empty strings only. -/
theorem parseLoop_stored (todo m : Nat) (pre : List GoString) (remainder rem1 : GoString)
    (arr3 : List GoString)
    (h : parseLoop todo pre.length remainder (pre ++ List.replicate (todo + m) [])
      = .ok (pre.length + todo, rem1, arr3)) :
    ∃ xs : List GoString, xs.length = todo ∧ (∀ x ∈ xs, x ≠ [])
      ∧ arr3 = pre ++ xs ++ List.replicate m [] := by
  induction todo generalizing pre remainder with
  | zero =>
    simp only [parseLoop] at h
    injection h with h
    injection h with _ h
    injection h with _ h2
    exact ⟨[], rfl, by simp, by simpa using h2.symm⟩
  | succ todo ih =>
    unfold parseLoop at h
    split at h
    · cases hb : parseRespBulkStrings remainder with
      | error p => rw [hb] at h; cases h
      | ok r =>
        obtain ⟨s, remainder1⟩ := r
        rw [hb] at h
        dsimp only at h
        split at h
        · injection h with h
          injection h with h0 _
          omega
        · rename_i hs
          have e2 : List.replicate (todo + 1 + m) ([] : GoString)
              = [] :: List.replicate (todo + m) [] := by
            rw [show todo + 1 + m = (todo + m) + 1 by omega, List.replicate_succ]
          rw [e2, set_length_append] at h
          have h3 : parseLoop todo (pre ++ [s]).length remainder1
              ((pre ++ [s]) ++ List.replicate (todo + m) [])
              = .ok ((pre ++ [s]).length + todo, rem1, arr3) := by
            simp only [List.length_append, List.length_singleton, List.append_assoc,
              List.singleton_append]
            rw [h, show pre.length + 1 + todo = pre.length + (todo + 1) by omega]
          obtain ⟨xs, hx1, hx2, hx3⟩ := ih (pre ++ [s]) remainder1 h3
          refine ⟨s :: xs, by simp [hx1], ?_, by rw [hx3]; simp⟩
          intro x hx
          rcases List.mem_cons.1 hx with hx | hx
          · rw [hx]; exact hs
          · exact hx2 x hx
    · injection h with h
      injection h with h0 _
      omega

/-- Every array the decoder returns without an error holds non-empty strings only. -/
theorem parseRespArray_nonempty (data : GoString) (arr : List GoString)
    (h : parseRespArray data = .ok (arr, none)) : ∀ s ∈ arr, s ≠ [] := by
  unfold parseRespArray at h
  split at h
  · cases h
  dsimp only at h
  cases hnum : slice data 1 (Index data (ascii "\r\n")) with
  | error p => rw [hnum, bind_error] at h; cases h
  | ok num =>
    rw [hnum, bind_ok] at h
    cases hat : Atoi num with
    | error e => rw [hat] at h; cases h
    | ok arrLen =>
      rw [hat] at h
      dsimp only at h
      split at h
      · cases h
      rename_i hneg
      cases hrem : sliceFrom data (wrapInt (Index data (ascii "\r\n") + 2)) with
      | error p => rw [hrem, bind_error] at h; cases h
      | ok remainder =>
        rw [hrem, bind_ok] at h
        cases hloop : parseLoop arrLen.toNat 0 remainder
            (List.replicate arrLen.toNat []) with
        | error p => rw [hloop, bind_error] at h; cases h
        | ok r =>
          obtain ⟨arrIdx, remainder1, arr3⟩ := r
          rw [hloop, bind_ok] at h
          dsimp only at h
          split at h
          · cases h
          rename_i hfin
          injection h with h
          injection h with h _
          subst h
          have hidx : (arrIdx : Int) = arrLen := by
            by_contra hne
            exact hfin (Or.inr hne)
          have hidx2 : arrLen.toNat = arrIdx := by clear * - hidx; omega
          rw [hidx2] at hloop
          obtain ⟨xs, _, hx2, hx3⟩ := parseLoop_stored arrIdx 0 [] remainder remainder1 arr3
            (by simpa using hloop)
          simp only [List.replicate_zero, List.append_nil, List.nil_append] at hx3
          rw [hx3]
          exact hx2

/-- A list with an empty string in it splits at the first one. -/
theorem split_at_first_empty (xs : List GoString) (h : [] ∈ xs) :
    ∃ pre post, xs = pre ++ [] :: post ∧ ∀ s ∈ pre, s ≠ [] := by
  induction xs with
  | nil => cases h
  | cons x xs ih =>
    by_cases hx : x = []
    · exact ⟨[], xs, by rw [hx]; rfl, by simp⟩
    · have hmem : [] ∈ xs := by
        rcases List.mem_cons.1 h with h | h
        · exact absurd h.symm hx
        · exact h
      obtain ⟨pre, post, e, hne⟩ := ih hmem
      refine ⟨x :: pre, post, by rw [e]; rfl, ?_⟩
      intro s hs
      rcases List.mem_cons.1 hs with hs | hs
      · rw [hs]; exact hx
      · exact hne s hs

/-- The request of a command that holds an empty string is rejected: the loop stops at the
first zero-length bulk string with elements still to come. -/
theorem parseRespArray_request_with_empty (xs : List GoString) (h : [] ∈ xs)
    (hxs : stringSize * (xs.length : Int) ≤ maxAlloc)
    (hlen : ((request xs).length : Int) ≤ maxInt) :
    parseRespArray (request xs) = .ok ([], some .unparsedItems) := by
  obtain ⟨pre, post, rfl, hne⟩ := split_at_first_empty xs h
  have hreq : request (pre ++ [] :: post)
      = [42] ++ fmtNat (pre.length + (post.length + 1)) ++ [13, 10] ++ bulkStrings pre
        ++ (frame (fmtNat 0) [] ++ bulkStrings post) := by
    rw [request_eq, bulkStrings_eq, bulkStrings_eq]
    simp [frames_eq_join, withLen]
  rw [hreq] at hlen ⊢
  have hN : stringSize * ((pre.length + (post.length + 1) : Nat) : Int) ≤ maxAlloc := by
    simpa using hxs
  rw [parseRespArray_bulkStrings pre (post.length + 1) _ hne hN hlen]
  have hrest : ((frame (fmtNat 0) [] ++ bulkStrings post).length : Int) ≤ maxInt := by
    simp only [List.length_append] at hlen ⊢
    omega
  have hb := parseRespBulkStrings_frame (fmtNat 0) [] (bulkStrings post) (fmtNat_no_cr 0)
    (Atoi_fmtNat 0 (by decide)) hrest
  rw [parseLoop, if_pos (by rw [List.length_append, frame_length]; omega), hb]
  dsimp only
  rw [if_pos rfl, bind_ok]
  dsimp only
  rw [if_pos (Or.inr (by push_cast; omega))]
  rfl

/-- C20: whenever the decoder returns an array and no error, every element of that array
is non-empty; and every request that carries a zero-length bulk string among its elements
is rejected with the error of unparsed items. (The elements of the request are a Go slice,
so they fit within `maxAlloc`, and the request is a Go string, so its length fits an
`int`.) -/
theorem parseRespArray_no_empty_string :
    (∀ (data : GoString) (arr : List GoString),
        parseRespArray data = .ok (arr, none) → ∀ s ∈ arr, s ≠ [])
      ∧ (∀ xs : List GoString, [] ∈ xs → stringSize * (xs.length : Int) ≤ maxAlloc →
        ((request xs).length : Int) ≤ maxInt →
        parseRespArray (request xs) = .ok ([], some .unparsedItems)) :=
  ⟨parseRespArray_nonempty, parseRespArray_request_with_empty⟩

/-- C20 at the request for `hello world` and at the request for `SET k` with an empty
value. -/
theorem parseRespArray_no_empty_string_witness :
    (∀ s ∈ [ascii "hello", ascii "world"], s ≠ [])
      ∧ request [ascii "SET", ascii "k", []] = ascii "*3\r\n$3\r\nSET\r\n$1\r\nk\r\n$0\r\n\r\n"
      ∧ parseRespArray (request [ascii "SET", ascii "k", []])
        = .ok ([], some .unparsedItems) :=
  ⟨parseRespArray_no_empty_string.1 (ascii "*2\r\n$5\r\nhello\r\n$5\r\nworld\r\n")
      [ascii "hello", ascii "world"] (by decide),
    by decide,
    parseRespArray_no_empty_string.2 [ascii "SET", ascii "k", []] (by decide) (by decide)
      (by decide)⟩

end RedisClone
